import Mathlib

/-!
Verification of the Tanx artillery-game simulation core (`tanx_game/core`).

The Python sources are embedded shallowly:

* Python `float` arithmetic is modelled by exact rational arithmetic (`ℚ`).
* Python `int` stays `ℤ`; `int(q)` on a float is truncation toward zero
  (`pyTrunc`) and `round` is round-half-to-even (`pyRound`).
* Transcendental library calls (`math.cos`, `math.sin`, `math.hypot`) have no
  exact rational counterpart, so every operation that uses them is
  parametrised by a `MathModel` supplying those functions; theorems either
  hold for every model or are evaluated at sample models that agree with the
  real functions on the rational points actually reached.
* Mutation of Python objects becomes functional state passing.  Where Python
  stores object references (a `ShotResult` holding a `Tank`/`Building`, the
  pending-collapse list holding `Building`s), the embedding stores the index
  of the object in the owning list, so that in-place mutation of the owner is
  reflected everywhere, exactly as reference aliasing is in the source.

The repository ships `tanx_game/core/world.py` without the rubble subsystem
(`RubbleSegment`, `rubble_hit_test`, `damage_rubble`, `is_column_blocked`),
although `game.py`, `tank.py` and `core/__init__.py` import and call it.
Those missing operations are modelled from the spec and are clearly marked
`Modelled from the spec:` below; everything else is translated directly from
the Python sources.
-/

namespace Tanx

/-- Truncation toward zero on rationals, the semantics of Python's `int()`
conversion applied to a float. -/
def pyTrunc (q : ℚ) : ℤ := if q < 0 then ⌈q⌉ else ⌊q⌋

/-- Round half to even on rationals, the semantics of Python's builtin
`round` on floats. -/
def pyRound (q : ℚ) : ℤ :=
  if q - ⌊q⌋ < 1/2 then ⌊q⌋
  else if q - ⌊q⌋ > 1/2 then ⌊q⌋ + 1
  else if ⌊q⌋ % 2 = 0 then ⌊q⌋ else ⌊q⌋ + 1

/-- Rational stand-ins for the transcendental functions the simulation calls.
`cos_deg a`/`sin_deg a` model `math.cos(math.radians(a))` and
`math.sin(math.radians(a))` for the integer turret angle `a`; `cos_pi t`
models `math.cos(t * math.pi)`; `hypot` models `math.hypot`. -/
structure MathModel where
  cos_deg : ℤ → ℚ
  sin_deg : ℤ → ℚ
  cos_pi : ℚ → ℚ
  hypot : ℚ → ℚ → ℚ

/-- Single storey of a building footprint (`BuildingFloor` in `world.py`). -/
structure BuildingFloor where
  height : ℚ
  max_hp : ℤ
  hp : ℤ
  destroyed : Bool := false
  deriving DecidableEq, Repr

/-- Clamp hp at zero and latch the destroyed flag (`BuildingFloor.damage`). -/
def BuildingFloor.damage (f : BuildingFloor) (amount : ℤ) : BuildingFloor :=
  let hp' := max 0 (f.hp - amount)
  { f with hp := hp', destroyed := if hp' = 0 then true else f.destroyed }

/-- Rectilinear structure composed of stacked floors (`Building` in
`world.py`). -/
structure Building where
  id : ℕ
  left : ℚ
  right : ℚ
  base : ℚ
  floors : List BuildingFloor
  unstable : Bool := false
  collapsed : Bool := false
  collapse_timer : ℚ := 0
  deriving DecidableEq, Repr

/-- First floor index whose destroyed flag is unset
(`Building.first_intact_floor_index`). -/
def firstIntactFrom : ℕ → List BuildingFloor → Option ℕ
  | _, [] => none
  | idx, f :: rest => if f.destroyed then firstIntactFrom (idx + 1) rest else some idx

/-- Wrapper fixing the scan to start at floor 0. -/
def Building.first_intact_floor_index (b : Building) : Option ℕ :=
  firstIntactFrom 0 b.floors

/-- Modelled from the spec: `RubbleSegment` is declared by
`core/__init__.py` but its definition is missing from the shipped
`core/world.py`.  The spec describes it as "left/right bounds, base, height,
current/max hit points, destroyed flag". -/
structure RubbleSegment where
  id : ℕ
  left : ℚ
  right : ℚ
  base : ℚ
  height : ℚ
  max_hp : ℤ
  hp : ℤ
  destroyed : Bool := false
  deriving DecidableEq, Repr

/-- Terrain state of `World` in `core/world.py`.  Generation (`__init__`,
`_generate_height_map`, `_generate_structures`) is random and not needed by
any claim, so a `TanxWorld` is an arbitrary post-construction state; the
`WF`/`HeightsIn` predicates below capture the constructor's guarantees that
the claims rely on.  The two function-valued fields stand for the rubble
operations missing from the shipped source. -/
structure TanxWorld where
  width : ℕ
  height : ℕ
  min_height : ℚ
  max_height : ℚ
  detail : ℕ
  grid_width : ℕ
  height_map : List ℚ
  buildings : List Building
  rubble : List RubbleSegment
  /-- Pending building collapses (`_pending_collapses`), stored as indices
  into `buildings` to model Python's reference aliasing. -/
  pending_collapses : List ℕ
  /-- Modelled from the spec: `is_column_blocked(x, include_rubble)` is
  called by `tank.py` and the spawn search but is missing from the shipped
  `core/world.py`; the spec only calls it a movement/spawn obstruction
  query, so it is kept abstract (an arbitrary boolean query). -/
  is_column_blocked : ℤ → Bool → Bool
  /-- Modelled from the spec: `rubble_hit_test(x, y)` is called by
  `game.py` but is missing from the shipped `core/world.py`; the spec says
  it is "analogous" to `building_hit_test` for rubble segments, so it is
  kept abstract, returning the index of the hit segment if any. -/
  rubble_hit_test : ℚ → ℚ → Option ℕ

/-- Structural well-formedness every constructed `World` satisfies:
`detail = max(2, settings.detail)`, `grid_width = width * detail`, and one
height sample per sub-cell column. -/
def TanxWorld.WF (w : TanxWorld) : Prop :=
  2 ≤ w.detail ∧ w.grid_width = w.width * w.detail ∧
    w.height_map.length = w.grid_width ∧ 0 < w.width

/-- Height-map bounds established by generation: every sample lies in
`[min_height, max_height]`, with the settings invariant
`1 ≤ min_height ≤ max_height ≤ height - 2` (the generator clamps
`max_height` to `height - 2`; default settings are 12/26/36). -/
def TanxWorld.HeightsIn (w : TanxWorld) : Prop :=
  1 ≤ w.min_height ∧ w.min_height ≤ w.max_height ∧
    w.max_height ≤ (w.height : ℚ) - 2 ∧
    ∀ v ∈ w.height_map, w.min_height ≤ v ∧ v ≤ w.max_height

instance (w : TanxWorld) : Decidable w.WF := by
  unfold TanxWorld.WF
  infer_instance

instance (w : TanxWorld) : Decidable w.HeightsIn := by
  unfold TanxWorld.HeightsIn
  infer_instance

/-- Read one height sample.  Python would raise on an out-of-range index;
every call site clamps the index into `[0, grid_width - 1]` first, so the
default value is never observable on well-formed worlds. -/
def TanxWorld.heightAt (w : TanxWorld) (hx : ℤ) : ℚ :=
  w.height_map.getD hx.toNat 0

/-- Bounds test `World.is_inside`. -/
def TanxWorld.is_inside (w : TanxWorld) (x y : ℤ) : Bool :=
  decide (0 ≤ x ∧ x < w.width ∧ 0 ≤ y ∧ y < w.height)

/-- Solidity query `World.is_solid`: the cell is solid when its centre row
lies at or below the sampled terrain height. -/
def TanxWorld.is_solid (w : TanxWorld) (x y : ℤ) : Bool :=
  if ¬ (w.is_inside x y) then false
  else
    let centerY : ℚ := (y : ℚ) + 1/2
    let hx : ℤ := min ((w.grid_width : ℤ) - 1) (max 0 (pyTrunc (((x : ℚ) + 1/2) * w.detail)))
    decide (centerY ≥ w.heightAt hx)

/-- Topmost solid row of a column, `World.highest_solid`. -/
def TanxWorld.highest_solid (w : TanxWorld) (x : ℤ) : Option ℤ :=
  if ¬ (0 ≤ x ∧ x < w.width) then none
  else
    let hx : ℤ := min ((w.grid_width : ℤ) - 1) (max 0 (x * w.detail))
    some ⌊w.heightAt hx⌋

/-- Standing row for a column, `World.surface_y`. -/
def TanxWorld.surface_y (w : TanxWorld) (x : ℤ) : Option ℤ :=
  match w.highest_solid x with
  | none => none
  | some top => some (max 0 (top - 1))

/-- Floor scan inside `World.building_hit_test`: walk the floors downward
from `base`, skipping destroyed floors, returning the first floor whose
tolerance-padded vertical bounds contain `y`. -/
def floorScan (y : ℚ) : ℚ → ℕ → List BuildingFloor → Option ℕ
  | _, _, [] => none
  | floorBottom, idx, f :: rest =>
    let floorTop := floorBottom - f.height
    if ¬ f.destroyed ∧
        min floorTop floorBottom - 1/20 ≤ y ∧ y ≤ max floorTop floorBottom + 1/20 then
      some idx
    else floorScan y floorTop (idx + 1) rest

/-- Building scan inside `World.building_hit_test`: first non-collapsed
building whose horizontally padded span contains `x` and whose floor scan
hits. -/
def buildingScan (x y : ℚ) : ℕ → List Building → Option (ℕ × ℕ)
  | _, [] => none
  | idx, b :: rest =>
    if b.collapsed then buildingScan x y (idx + 1) rest
    else if x < b.left - 3/20 ∨ x > b.right + 3/20 then buildingScan x y (idx + 1) rest
    else
      match floorScan y b.base 0 b.floors with
      | some fidx => some (idx, fidx)
      | none => buildingScan x y (idx + 1) rest

/-- Hit test `World.building_hit_test` (tolerance 0.05 vertical, 0.15
horizontal), returning indices instead of object references. -/
def TanxWorld.building_hit_test (w : TanxWorld) (x y : ℚ) : Option (ℕ × ℕ) :=
  buildingScan x y 0 w.buildings

/-- Collapse scheduling `World.schedule_building_collapse` for the building
at index `bi`: no-op on collapsed buildings, otherwise mark unstable, set
the timer and enqueue once. -/
def TanxWorld.schedule_building_collapse (w : TanxWorld) (bi : ℕ) (delay : ℚ) : TanxWorld :=
  match w.buildings.get? bi with
  | none => w
  | some b =>
    if b.collapsed then w
    else
      { w with
        buildings := w.buildings.set bi { b with unstable := true, collapse_timer := max 0 delay }
        pending_collapses :=
          if bi ∈ w.pending_collapses then w.pending_collapses
          else w.pending_collapses ++ [bi] }

/-- Integer index range `[start, start + count)`, the hx values visited by a
Python `range(start, end + 1)` loop with `count = end + 1 - start`. -/
def intRange (start : ℤ) (count : ℕ) : List ℤ :=
  (List.range count).map (fun i : ℕ => start + (i : ℤ))

/-- Body of the `carve_circle` write loop of `core/world.py` for one sub-cell
index `hx`: inside the crater the height value is raised toward the
cosine-profiled crater floor (never lowered, clamped at `height - 1`);
in the rim band `(radius, 1.6 * radius]` the value is lowered by the rim
elevation (clamped at `min_height`); further out nothing changes. -/
def carveCell (M : MathModel) (height : ℕ) (min_height : ℚ) (detail : ℕ)
    (cx cy radius : ℚ) (hm : List ℚ) (hx : ℤ) : List ℚ :=
  let x_world : ℚ := (hx : ℚ) / (detail : ℚ)
  let dx := x_world - cx
  let dist := |dx|
  if dist > radius * (9/5) then hm
  else
    let crater_depth := radius * (7/10)
    let current := hm.getD hx.toNat 0
    if dist ≤ radius then
      let profile := M.cos_pi (dist / radius) * (1/2) + 1/2
      let target := cy + profile * crater_depth
      hm.set hx.toNat (max current (min ((height : ℚ) - 1) target))
    else
      let rim_span := radius * (3/5)
      if dist ≤ radius + rim_span then
        let rim_t := 1 - (dist - radius) / rim_span
        let rim_height := rim_t * (crater_depth * (1/5))
        hm.set hx.toNat (max min_height (current - rim_height))
      else hm

/-- Smoothing read with the index clamped into `[start, stop]`, as in the
`idx = min(max(start, hx + offset), end)` line of `_smooth_heights`. -/
def smoothRead (start stop : ℤ) (temp : List ℚ) (hx off : ℤ) : ℚ :=
  temp.getD (min (max start (hx + off)) stop).toNat 0

/-- One pass of the `_smooth_heights` loop: every index in `[start, stop]`
is replaced by the kernel-weighted average of the snapshot `temp` (kernel
`[0.15, 0.35, 0.35, 0.15]`, offsets `-2..1`, weight summing to 1), clamped
into `[min_height, max_height]`; indices outside the span keep their value.
The source reads from the pre-pass snapshot throughout, which the pure map
reproduces. -/
def smoothOnce (min_height max_height : ℚ) (start stop : ℤ) (temp : List ℚ) : List ℚ :=
  temp.mapIdx fun i v =>
    if start ≤ (i : ℤ) ∧ (i : ℤ) ≤ stop then
      let accum :=
        smoothRead start stop temp i (-2) * (3/20) +
        smoothRead start stop temp i (-1) * (7/20) +
        smoothRead start stop temp i 0 * (7/20) +
        smoothRead start stop temp i 1 * (3/20)
      let weight : ℚ := 3/20 + 7/20 + 7/20 + 3/20
      max min_height (min max_height (accum / weight))
    else v

/-- Terrain smoothing `World._smooth_heights`: no-op when `start >= end`,
otherwise the given number of kernel passes. -/
def TanxWorld.smooth_heights (w : TanxWorld) (start stop : ℤ) (iterations : ℕ) : TanxWorld :=
  if start ≥ stop then w
  else
    { w with
      height_map :=
        (List.range iterations).foldl
          (fun t _ => smoothOnce w.min_height w.max_height start stop t) w.height_map }

/-- Affected index window of `carve_circle`: `start` clamped below at 0. -/
def carveStart (detail : ℕ) (cx radius : ℚ) : ℤ :=
  max 0 (pyTrunc ((cx - radius * (9/5)) * (detail : ℚ)))

/-- Affected index window of `carve_circle`: `end` clamped above at
`grid_width - 1`. -/
def carveStop (grid_width detail : ℕ) (cx radius : ℚ) : ℤ :=
  min ((grid_width : ℤ) - 1) (pyTrunc ((cx + radius * (9/5)) * (detail : ℚ)))

/-- Write phase of `World.carve_circle` (the `for hx in range(start, end+1)`
loop), before smoothing. -/
def TanxWorld.carve_writes (M : MathModel) (w : TanxWorld) (cx cy radius : ℚ) : TanxWorld :=
  let start := carveStart w.detail cx radius
  let stop := carveStop w.grid_width w.detail cx radius
  { w with
    height_map :=
      (intRange start (stop + 1 - start).toNat).foldl
        (carveCell M w.height w.min_height w.detail cx cy radius) w.height_map }

/-- Destructive deformation `World.carve_circle`: early return on
non-positive radius or an empty index window, otherwise the write loop
followed by four smoothing passes over the affected span. -/
def TanxWorld.carve_circle (M : MathModel) (w : TanxWorld) (cx cy radius : ℚ) : TanxWorld :=
  if radius ≤ 0 then w
  else
    let start := carveStart w.detail cx radius
    let stop := carveStop w.grid_width w.detail cx radius
    if start > stop then w
    else (w.carve_writes M cx cy radius).smooth_heights start stop 4

/-- Player tank (`Tank` in `core/tank.py`). -/
structure Tank where
  name : String
  x : ℤ
  y : ℤ
  facing : ℤ
  hp : ℤ := 100
  turret_angle : ℤ := 45
  min_angle : ℤ := -75
  max_angle : ℤ := 75
  move_distance : ℤ := 1
  shot_power : ℚ := 1
  min_power : ℚ := 2/5
  max_power : ℚ := 9/5
  power_step : ℚ := 1/10
  super_power : ℚ := 0
  last_command : Option String := none
  deriving DecidableEq, Repr

/-- Liveness predicate `Tank.alive`. -/
def Tank.alive (t : Tank) : Bool := decide (0 < t.hp)

/-- Damage application `Tank.take_damage`: hp floors at zero. -/
def Tank.take_damage (t : Tank) (amount : ℤ) : Tank :=
  { t with hp := max 0 (t.hp - amount) }

/-- Super-power accrual `Tank.add_super_power`: clamped into `[0, 1]`. -/
def Tank.add_super_power (t : Tank) (amount : ℚ) : Tank :=
  { t with super_power := max 0 (min 1 (t.super_power + amount)) }

/-- Walk attempt `Tank.move`: returns the success flag together with the
(possibly unchanged) tank.  The world is only queried, never written, which
the return type makes explicit. -/
def Tank.move (t : Tank) (w : TanxWorld) (direction : ℤ) : Bool × Tank :=
  let target_x := t.x + direction * t.move_distance
  if ¬ (0 ≤ target_x ∧ target_x < w.width) then (false, t)
  else if w.is_column_blocked target_x false then (false, t)
  else
    match w.surface_y target_x with
    | none => (false, t)
    | some surface =>
      if surface < 0 then (false, t)
      else if 1 < |surface - t.y| then (false, t)
      else
        (true,
          { t with
            x := target_x, y := surface,
            last_command := some (if direction < 0 then "left" else "right") })

/-- Record of one ballistic simulation (`ShotResult` in `core/game.py`).
Object references (hit tank, hit building, hit rubble) are stored as
indices into the owning lists. -/
structure ShotResult where
  hit_tank : Option ℕ
  impact_x : Option ℚ
  impact_y : Option ℚ
  path : List (ℚ × ℚ)
  fatal_hit : Bool := false
  fatal_tank : Option ℕ := none
  hit_building : Option ℕ := none
  hit_building_floor : Option ℕ := none
  hit_rubble : Option ℕ := none
  deriving DecidableEq, Repr

/-- Simulation state of `Game` in `core/game.py`: the world, the tank list
and the tunable constants set in `Game.__init__` (kept as fields because
tests reassign them, e.g. `game.gravity = 0.0`). -/
structure GameState where
  world : TanxWorld
  tanks : List Tank
  gravity : ℚ := 7/20
  projectile_speed : ℚ := 13/2
  damage : ℤ := 25
  explosion_radius : ℚ := 9/5
  crater_size : ℤ := 4
  projectile_time_step : ℚ := 1/10

/-- Kind of collision a projectile step can register. -/
inductive HitKind where
  | building (b f : ℕ)
  | rubble (seg : ℕ)
  | tank (i : ℕ)
  | terrain
  deriving DecidableEq, Repr

/-- Tank-proximity scan of the `for tank in self.tanks` loop in
`step_projectile`: first tank in list order that is alive, is not the
shooter, and is within 0.6 world units of the projectile on both axes. -/
def tankHitScan (shooter : ℕ) (x y : ℚ) : ℕ → List Tank → Option ℕ
  | _, [] => none
  | i, t :: rest =>
    if ¬ t.alive ∨ i = shooter then tankHitScan shooter x y (i + 1) rest
    else if |(t.x : ℚ) - x| ≤ 3/5 ∧ |(t.y : ℚ) - y| ≤ 3/5 then some i
    else tankHitScan shooter x y (i + 1) rest

/-- Integration loop of `Game.step_projectile` (`for _ in range(360)`):
explicit Euler step, path append, out-of-bounds break, `y < 0` skip, then
the building / rubble / tank / terrain tests in source order, the first
success breaking the loop with that hit. -/
def projLoopSim (g : GameState) (shooter : ℕ) :
    ℕ → ℚ → ℚ → ℚ → ℚ → List (ℚ × ℚ) → List (ℚ × ℚ) × Option (HitKind × ℚ × ℚ)
  | 0, _, _, _, _, path => (path, none)
  | fuel + 1, x, y, vx, vy, path =>
    let x' := x + vx * g.projectile_time_step
    let y' := y + vy * g.projectile_time_step
    let vy' := vy + g.gravity * g.projectile_time_step
    let path' := path ++ [(x', y')]
    if x' < 0 ∨ x' ≥ (g.world.width : ℚ) ∨ y' ≥ (g.world.height : ℚ) then (path', none)
    else if y' < 0 then projLoopSim g shooter fuel x' y' vx vy' path'
    else
      match g.world.building_hit_test x' y' with
      | some (b, f) => (path', some (.building b f, x', y'))
      | none =>
        match g.world.rubble_hit_test x' y' with
        | some seg => (path', some (.rubble seg, x', y'))
        | none =>
          match tankHitScan shooter x' y' 0 g.tanks with
          | some i => (path', some (.tank i, x', y'))
          | none =>
            if g.world.is_solid (pyRound x') (pyRound y') then (path', some (.terrain, x', y'))
            else projLoopSim g shooter fuel x' y' vx vy' path'

/-- Assemble the `ShotResult` fields from the loop outcome, as the record
construction at the end of `step_projectile` does. -/
def mkShotResult (path : List (ℚ × ℚ)) : Option (HitKind × ℚ × ℚ) → ShotResult
  | none => { hit_tank := none, impact_x := none, impact_y := none, path := path }
  | some (k, ix, iy) =>
    { hit_tank := match k with | .tank i => some i | _ => none
      impact_x := some ix
      impact_y := some iy
      path := path
      hit_building := match k with | .building b _ => some b | _ => none
      hit_building_floor := match k with | .building _ f => some f | _ => none
      hit_rubble := match k with | .rubble s => some s | _ => none }

/-- Ballistic simulation `Game.step_projectile` with `apply_effects=False`
(effect application is a separate function, as at the `begin_projectile`
call site).  The shooter is given by index; an out-of-range index (which
cannot arise from the Python call sites, where the shooter is an element of
`self.tanks`) yields an empty result. -/
def GameState.step_projectile (M : MathModel) (g : GameState) (shooter : ℕ) : ShotResult :=
  match g.tanks.get? shooter with
  | none => { hit_tank := none, impact_x := none, impact_y := none, path := [] }
  | some sh =>
    let speed := g.projectile_speed * sh.shot_power
    let vx := M.cos_deg sh.turret_angle * speed * (sh.facing : ℚ)
    let vy := - M.sin_deg sh.turret_angle * speed
    let x0 := (sh.x : ℚ) + 1/2 + (sh.facing : ℚ) * (3/5)
    let y0 := (sh.y : ℚ) - 1/2
    let sim := projLoopSim g shooter 360 x0 y0 vx vy []
    mkShotResult sim.1 sim.2

/-- Modelled from the spec: `World.damage_rubble` is called by `game.py`
but missing from the shipped `core/world.py`; the spec says rubble damage
is "analogous" to floor damage and "applied to that segment only, no
cascading", so the segment's hp floors at zero and the destroyed flag
latches. -/
def TanxWorld.damage_rubble (w : TanxWorld) (si : ℕ) (amount : ℤ) : TanxWorld :=
  match w.rubble.get? si with
  | none => w
  | some s =>
    let hp' := max 0 (s.hp - amount)
    { w with
      rubble :=
        w.rubble.set si
          { s with hp := hp', destroyed := if hp' = 0 then true else s.destroyed } }

/-- Structural damage `Game._apply_building_damage`: fixed damage to the
hit floor; if it reaches zero every intact floor above is forced to zero
and destroyed, then either a 0.8 s collapse is scheduled (no intact floor
left) or, when the destroyed floor is at or below the first remaining
intact floor, the building is marked unstable with a 1.2 s collapse for
floor index 0. -/
def GameState.apply_building_damage (g : GameState) (r : ShotResult) : GameState :=
  match r.hit_building, r.hit_building_floor with
  | some bi, some fi =>
    match g.world.buildings.get? bi with
    | none => g
    | some b =>
      if ¬ (fi < b.floors.length) then g
      else
        match b.floors.get? fi with
        | none => g
        | some f =>
          if f.destroyed then g
          else
            let f' := f.damage g.damage
            let floors1 := b.floors.set fi f'
            if f'.destroyed then
              let floors2 :=
                floors1.mapIdx fun j fl =>
                  if fi < j ∧ ¬ fl.destroyed then { fl with hp := 0, destroyed := true }
                  else fl
              let b2 := { b with floors := floors2 }
              let w2 := { g.world with buildings := g.world.buildings.set bi b2 }
              match b2.first_intact_floor_index with
              | none => { g with world := w2.schedule_building_collapse bi (4/5) }
              | some intact =>
                if fi ≤ intact then
                  let b3 := { b2 with unstable := true }
                  let w3 := { w2 with buildings := w2.buildings.set bi b3 }
                  if fi = 0 then { g with world := w3.schedule_building_collapse bi (6/5) }
                  else { g with world := w3 }
                else { g with world := w2 }
            else
              { g with
                world :=
                  { g.world with buildings := g.world.buildings.set bi { b with floors := floors1 } } }
  | _, _ => g

/-- Splash pass `Game._apply_splash_damage` over the tank list: dead tanks
and tanks beyond `explosion_radius` are skipped; point-blank distance
(≤ 0.5) takes the full fixed damage; otherwise linear-falloff splash
damage `max(1, int(damage * falloff * 0.6))`.  The returned index is the
last tank that died during the pass (Python overwrites `fatal_tank`).
`splashHit` is the loop body for one tank. -/
def splashHit (M : MathModel) (damage : ℤ) (radius ix iy : ℚ) (i : ℕ) (t : Tank) :
    Tank × Option ℕ :=
  if ¬ t.alive then (t, none)
  else
    let distance := M.hypot ((t.x : ℚ) - ix) ((t.y : ℚ) - iy)
    if distance > radius then (t, none)
    else if distance ≤ 1/2 then
      if t.alive then
        let t2 := t.take_damage damage
        (t2, if ¬ t2.alive then some i else none)
      else (t, none)
    else
      let falloff := 1 - min (distance / radius) 1
      let splash := max 1 (pyTrunc ((damage : ℚ) * falloff * (3/5)))
      let was_alive := t.alive
      let t2 := t.take_damage splash
      (t2, if was_alive ∧ ¬ t2.alive then some i else none)

/-- Recursion over the tank list for `_apply_splash_damage`. -/
def splashLoop (M : MathModel) (damage : ℤ) (radius ix iy : ℚ) :
    ℕ → List Tank → List Tank × Option ℕ
  | _, [] => ([], none)
  | i, t :: rest =>
    let hd := splashHit M damage radius ix iy i t
    let tl := splashLoop M damage radius ix iy (i + 1) rest
    (hd.1 :: tl.1, tl.2.orElse (fun _ => hd.2))

/-- Descent loop of `Game.settle_tank`: raise `y` while the cell below is
inside the world and not solid.  `fuel` bounds the loop; the caller passes
enough fuel for the `y + 1 < height` guard to stop it first. -/
def settleFall (w : TanxWorld) (x : ℤ) : ℤ → ℕ → ℤ
  | y, 0 => y
  | y, fuel + 1 =>
    if y + 1 < (w.height : ℤ) ∧ ¬ w.is_solid x (y + 1) then settleFall w x (y + 1) fuel
    else y

/-- Post-mutation repositioning `Game.settle_tank`: fall to the first solid
row beneath, then snap up to the column surface if that is higher. -/
def settleTank (w : TanxWorld) (t : Tank) : Tank :=
  let y1 := settleFall w t.x t.y ((w.height : ℤ) - t.y).toNat
  match w.surface_y t.x with
  | none => { t with y := y1 }
  | some surface =>
    if surface < 0 then { t with y := 0 }
    else if surface < y1 then { t with y := surface }
    else { t with y := y1 }

/-- First section of `Game.apply_shot_effects`: structure damage, rubble
damage or crater carve depending on the hit kind (the `if`/`elif` chain at
the top of the Python function). -/
def GameState.shot_impact_effects (M : MathModel) (g : GameState) (r : ShotResult) :
    GameState :=
  if r.hit_building.isSome ∧ r.impact_x.isSome ∧ r.impact_y.isSome then
    g.apply_building_damage r
  else if r.hit_rubble.isSome ∧ r.impact_x.isSome ∧ r.impact_y.isSome then
    match r.hit_rubble with
    | some si => { g with world := g.world.damage_rubble si g.damage }
    | none => g
  else
    match r.impact_x, r.impact_y, r.hit_tank with
    | some ix, some iy, none =>
      { g with world := g.world.carve_circle M ix iy g.explosion_radius }
    | _, _, _ => g

/-- Second section of `Game.apply_shot_effects`: direct damage on a hit
tank, or the splash pass; returns the updated state together with the
fatality (the last previously-alive tank whose hp reached zero). -/
def GameState.shot_damage_effects (M : MathModel) (g1 : GameState) (r : ShotResult) :
    GameState × Option ℕ :=
  match r.hit_tank with
  | some ti =>
    match g1.tanks.get? ti with
    | none => (g1, none)
    | some t =>
      let was_alive := t.alive
      let t' := t.take_damage g1.damage
      ({ g1 with tanks := g1.tanks.set ti t' },
        if was_alive ∧ ¬ t'.alive then some ti else none)
  | none =>
    match r.impact_x, r.impact_y with
    | some ix, some iy =>
      let sp := splashLoop M g1.damage g1.explosion_radius ix iy 0 g1.tanks
      ({ g1 with tanks := sp.1 }, sp.2)
    | _, _ => (g1, none)

/-- Effect application `Game.apply_shot_effects`: structure damage, rubble
damage or crater carve depending on the hit kind; then direct damage on a
hit tank or the splash pass; then settling of every living tank; finally
the fatal-hit bookkeeping written back into the result. -/
def GameState.apply_shot_effects (M : MathModel) (g : GameState) (r : ShotResult) :
    GameState × ShotResult :=
  let g1 := g.shot_impact_effects M r
  let dmg := g1.shot_damage_effects M r
  let g2 := dmg.1
  let fatal := dmg.2
  let g3 := { g2 with tanks := g2.tanks.map fun t => if t.alive then settleTank g2.world t else t }
  (g3, { r with fatal_hit := fatal.isSome, fatal_tank := fatal })

/-- Incremental animation update (`ProjectileStep` in `core/session.py`). -/
structure ProjectileStep where
  trail_positions : List (ℚ × ℚ) := []
  finished : Bool := false
  result : Option ShotResult := none
  deriving DecidableEq, Repr

/-- Turn/animation state of `GameSession` in `core/session.py`.  The
free-form `message` string and the `superpower_active_player` bookkeeping
are presentation-only and not referenced by any claim, so they are
omitted.  `current_player` is kept as a natural number; the session only
ever stores 0 or 1 in it (`advance_turn` computes `1 - current_player`). -/
structure SessionState where
  game : GameState
  projectile_interval : ℚ := 3/100
  current_player : ℕ := 0
  projectile_result : Option ShotResult := none
  projectile_timer : ℚ := 0
  projectile_index : ℕ := 0
  projectile_position : Option (ℚ × ℚ) := none
  active_shooter : Option ℕ := none
  winner : Option ℕ := none
  winner_delay : ℚ := 0

/-- Animation gate `GameSession.is_animating_projectile`. -/
def SessionState.is_animating_projectile (s : SessionState) : Bool :=
  s.projectile_result.isSome

/-- Shot start `GameSession.begin_projectile` for the tank at index `ti`:
mark the last command, run the full ballistic simulation eagerly without
effects, and reset the playback cursor to the start of the path. -/
def SessionState.begin_projectile (M : MathModel) (s : SessionState) (ti : ℕ) :
    SessionState × ShotResult :=
  let g :=
    match s.game.tanks.get? ti with
    | none => s.game
    | some t => { s.game with tanks := s.game.tanks.set ti { t with last_command := some "fire" } }
  let result := g.step_projectile M ti
  ({ s with
      game := g
      projectile_result := some result
      projectile_index := 0
      projectile_timer := 0
      projectile_position := result.path.head?
      active_shooter := some ti },
    result)

/-- Playback loop of `GameSession.update_projectile` (`while
self.projectile_timer >= self.projectile_interval`): consume one interval
per iteration, advance the index, finish once the index passes the end of
the path, otherwise expose the next path point and append it to the trail.
`fuel` bounds the recursion; with a positive interval the caller passes
enough fuel for the timer guard to stop the loop first.  (For a
non-positive interval the Python loop would not terminate.)
`AnimOut` packages the loop's net effect on the session fields: final
timer, final index, appended trail, and whether playback finished. -/
structure AnimOut where
  timer : ℚ
  index : ℕ
  trail : List (ℚ × ℚ)
  finished : Bool
  deriving DecidableEq, Repr

def projAnimLoop (interval : ℚ) (path : List (ℚ × ℚ)) :
    ℕ → ℚ → ℕ → List (ℚ × ℚ) → AnimOut
  | 0, timer, idx, trail => ⟨timer, idx, trail, false⟩
  | fuel + 1, timer, idx, trail =>
    if timer ≥ interval then
      let timer' := timer - interval
      let idx' := idx + 1
      if idx' ≥ path.length then ⟨timer', idx', trail, true⟩
      else projAnimLoop interval path fuel timer' idx' (trail ++ [path.getD idx' (0, 0)])
    else ⟨timer, idx, trail, false⟩

/-- Animation advance `GameSession.update_projectile(dt)`: no-op step when
no projectile is in flight; otherwise accumulate `dt` into the timer and
run the playback loop, returning the finished step (carrying the pending
result and clearing the animation state) exactly when the index passes the
end of the path. -/
def SessionState.update_projectile (s : SessionState) (dt : ℚ) :
    SessionState × ProjectileStep :=
  match s.projectile_result with
  | none => (s, {})
  | some r =>
    let timer0 := s.projectile_timer + dt
    let fuel := (⌊timer0 / s.projectile_interval⌋).toNat + 1
    let out := projAnimLoop s.projectile_interval r.path fuel timer0 s.projectile_index []
    if out.finished then
      ({ s with
          projectile_result := none
          projectile_position := none
          projectile_timer := out.timer
          projectile_index := out.index },
        { trail_positions := out.trail, finished := true, result := some r })
    else
      ({ s with
          projectile_timer := out.timer
          projectile_index := out.index
          projectile_position :=
            if s.projectile_index < out.index then r.path.get? out.index
            else s.projectile_position },
        { trail_positions := out.trail, finished := false, result := none })

/-- Turn swap `GameSession.advance_turn`. -/
def SessionState.advance_turn (s : SessionState) : SessionState :=
  { s with current_player := 1 - s.current_player }

/-- Victory check `GameSession.check_victory`: exactly one tank alive sets
the winner, zero alive clears it, otherwise the field is untouched. -/
def SessionState.check_victory (s : SessionState) : SessionState :=
  let aliveIdx := (s.game.tanks.enum.filter fun p => p.2.alive).map Prod.fst
  match aliveIdx with
  | [i] => { s with winner := some i }
  | [] => { s with winner := none }
  | _ => s

/-- Living opponents of `_update_super_power`: tanks that are alive and
are not the shooter.  Object identity (`tank is not shooter`) is index
inequality in the embedding. -/
def livingOpponents (g : GameState) (shooter : ℕ) : List (ℕ × Tank) :=
  g.tanks.enum.filter fun p => decide (p.1 ≠ shooter) && p.2.alive

/-- Nearest-opponent distance of `_update_super_power`: minimum of the
`math.hypot` distances from the impact to each living opponent, with the
source's fallback of the tank's own `y` when `impact_y` is `None`.  (The
empty-list case is unreachable at the call site, which guards on
`opponents` being non-empty.) -/
def nearestOpponentDist (M : MathModel) (g : GameState) (shooter : ℕ)
    (ix : ℚ) (iyo : Option ℚ) : ℚ :=
  let distances := (livingOpponents g shooter).map fun p =>
    M.hypot ((p.2.x : ℚ) - ix)
      ((p.2.y : ℚ) - (match iyo with | some iy => iy | none => (p.2.y : ℚ)))
  match distances with
  | [] => 0
  | d :: ds => ds.foldl min d

/-- Bonus computation of `_update_super_power`: 0.75 for a direct non-self
hit; otherwise, when there is an impact point and a living opponent, 0.6 at
nearest distance ≤ 0.5 and `0.45 * (max(0,(6-d)/6))^2` beyond; else 0. -/
def superBonus (M : MathModel) (g : GameState) (shooter : ℕ)
    (ro : Option ShotResult) : ℚ :=
  match ro with
  | some r =>
    if (match r.hit_tank with | some ti => decide (ti ≠ shooter) | none => false : Bool) then 3/4
    else
      match r.impact_x with
      | some ix =>
        if (livingOpponents g shooter).isEmpty then 0
        else
          let min_dist := nearestOpponentDist M g shooter ix r.impact_y
          if min_dist ≤ 1/2 then 3/5
          else
            let falloff := max 0 ((6 - min_dist) / 6)
            (9/20) * falloff ^ 2
      | none => 0
  | none => 0

/-- Super-power accrual `GameSession._update_super_power` for the shooter
at index `shooter`: base gain 0.08 plus `superBonus`, added through the
`[0,1]` clamp of `add_super_power`. -/
def SessionState.update_super_power (M : MathModel) (s : SessionState) (shooter : ℕ)
    (ro : Option ShotResult) : SessionState :=
  let base_gain : ℚ := 2/25
  match s.game.tanks.get? shooter with
  | none => s
  | some t =>
    { s with
      game :=
        { s.game with
          tanks :=
            s.game.tanks.set shooter
              (t.add_super_power (base_gain + superBonus M s.game shooter ro)) } }

/-- Shot resolution `GameSession.resolve_projectile`: apply the effects (if
a result is pending), update the shooter's super-power gauge, advance the
turn, check victory and set the winner delay.  Status-message formatting is
presentation-only and omitted. -/
def SessionState.resolve_projectile (M : MathModel) (s : SessionState)
    (ro : Option ShotResult) : SessionState × Option ShotResult :=
  let er : GameState × Option ShotResult :=
    match ro with
    | some r =>
      let ar := s.game.apply_shot_effects M r
      (ar.1, some ar.2)
    | none => (s.game, none)
  let g1 := er.1
  let r1 := er.2
  let s1 := { s with game := g1, active_shooter := none }
  let s2 := s1.update_super_power M s1.current_player r1
  let s3 := s2.advance_turn
  let s4 := s3.check_victory
  let s5 :=
    { s4 with
      winner_delay :=
        if s4.winner.isSome && (match r1 with | some r => r.fatal_hit | none => false) then 2
        else 0 }
  (s5, r1)

/-- Sample rational math model for concrete evaluations.  It is exact at
every point where the concrete states below evaluate it: `cos`/`sin` at 0°,
`cos_pi` at 0, 1/2 and 1, `hypot` on the axes.  Away from those points
`hypot a b = |a| + |b|` is an upper bound of the true distance; the
concrete states only compare it against thresholds that the bound and the
true value clear on the same side. -/
def sampleModel : MathModel where
  cos_deg a := if a = 0 then 1 else 0
  sin_deg a := if a = 0 then 0 else 1
  cos_pi t := if t = 0 then 1 else if t = 1/2 then 0 else if t = 1 then -1 else 0
  hypot a b := if a = 0 then |b| else if b = 0 then |a| else |a| + |b|

/-- Flat test world in the mould of the repository's `flat_settings`
fixture: constant height 12, no structures, nothing blocked. -/
def flatWorld : TanxWorld where
  width := 12
  height := 24
  min_height := 12
  max_height := 12
  detail := 2
  grid_width := 24
  height_map := List.replicate 24 12
  buildings := []
  rubble := []
  pending_collapses := []
  is_column_blocked := fun _ _ => false
  rubble_hit_test := fun _ _ => none

/-- C6: `Tank.move(world, direction)` returns `True` iff the destination
column `x + direction * move_distance` is within world bounds, is not
blocked, has a defined non-negative surface, and that surface differs from
the tank's current `y` by at most 1; whenever it returns `False` the tank
(in particular its `x`, `y` and `facing`) is unchanged.  The embedding's
type `TanxWorld → ℤ → Bool × Tank` makes the absence of world mutation
explicit: `move` only queries the world. -/
theorem move_success_iff (w : TanxWorld) (t : Tank) (direction : ℤ) :
    ((t.move w direction).1 = true ↔
      (0 ≤ t.x + direction * t.move_distance ∧
        t.x + direction * t.move_distance < (w.width : ℤ) ∧
        w.is_column_blocked (t.x + direction * t.move_distance) false = false ∧
        ∃ s, w.surface_y (t.x + direction * t.move_distance) = some s ∧ 0 ≤ s ∧
          |s - t.y| ≤ 1)) ∧
    ((t.move w direction).1 = false → (t.move w direction).2 = t) := by
  refine ⟨?_, ?_⟩
  · unfold Tank.move
    by_cases hb : 0 ≤ t.x + direction * t.move_distance ∧
        t.x + direction * t.move_distance < (w.width : ℤ)
    · rw [if_neg (not_not_intro hb)]
      by_cases hbl : w.is_column_blocked (t.x + direction * t.move_distance) false = true
      · rw [if_pos hbl]
        apply iff_of_false (by simp)
        rintro ⟨-, -, hbl', -⟩
        rw [hbl] at hbl'
        exact absurd hbl' (by simp)
      · rw [if_neg hbl]
        rcases hs : w.surface_y (t.x + direction * t.move_distance) with _ | s <;>
            simp only [hs]
        · apply iff_of_false (by simp)
          rintro ⟨-, -, -, s, hss, -⟩
          exact Option.noConfusion hss
        · by_cases hneg : s < 0
          · rw [if_pos hneg]
            apply iff_of_false (by simp)
            rintro ⟨-, -, -, s', hss, hs0, -⟩
            rw [Option.some_inj] at hss
            omega
          · rw [if_neg hneg]
            by_cases hfar : 1 < |s - t.y|
            · rw [if_pos hfar]
              apply iff_of_false (by simp)
              rintro ⟨-, -, -, s', hss, -, hle⟩
              rw [Option.some_inj] at hss
              subst hss
              exact absurd hle (not_le.mpr hfar)
            · rw [if_neg hfar]
              apply iff_of_true rfl
              exact ⟨hb.1, hb.2, by simpa using hbl, s, rfl, not_lt.mp hneg,
                not_lt.mp hfar⟩
    · rw [if_pos hb]
      apply iff_of_false (by simp)
      rintro ⟨hb1, hb2, -⟩
      exact hb ⟨hb1, hb2⟩
  · unfold Tank.move
    by_cases hb : 0 ≤ t.x + direction * t.move_distance ∧
        t.x + direction * t.move_distance < (w.width : ℤ)
    · rw [if_neg (not_not_intro hb)]
      by_cases hbl : w.is_column_blocked (t.x + direction * t.move_distance) false = true
      · rw [if_pos hbl]
        intro _
        rfl
      · rw [if_neg hbl]
        rcases hs : w.surface_y (t.x + direction * t.move_distance) with _ | s <;>
            simp only [hs]
        · intro _
          first
          | rfl
          | trivial
        · by_cases hneg : s < 0
          · rw [if_pos hneg]
            intro _
            rfl
          · rw [if_neg hneg]
            by_cases hfar : 1 < |s - t.y|
            · rw [if_pos hfar]
              intro _
              rfl
            · rw [if_neg hfar]
              intro habs
              exact absurd habs (by simp)
    · rw [if_pos hb]
      intro _
      rfl

/-- Unfolding lemma for the bounds test. -/
theorem is_inside_eq_true (w : TanxWorld) (x y : ℤ) :
    w.is_inside x y = true ↔ (0 ≤ x ∧ x < w.width ∧ 0 ≤ y ∧ y < w.height) := by
  simp [TanxWorld.is_inside]

/-- A clamped sample index reads an actual member of the height map. -/
theorem heightAt_mem (w : TanxWorld) (hwf : w.WF) (hx : ℤ)
    (h0 : 0 ≤ hx) (h1 : hx ≤ (w.grid_width : ℤ) - 1) :
    w.heightAt hx ∈ w.height_map := by
  obtain ⟨hdet, hgw, hlen, hwid⟩ := hwf
  have hpos : 0 < w.grid_width := by
    have : 2 ≤ w.grid_width := by
      calc 2 = 1 * 2 := by ring
      _ ≤ w.width * w.detail := Nat.mul_le_mul hwid hdet
      _ = w.grid_width := hgw.symm
    omega
  have hlt : hx.toNat < w.height_map.length := by
    rw [hlen]
    omega
  rw [TanxWorld.heightAt, w.height_map.getD_eq_getElem 0 hlt]
  exact w.height_map.getElem_mem hlt

/-- Constant-height terrain whose height 20.7 has fractional part above one
half: the cell just below the standing surface is not solid. -/
def fracWorld : TanxWorld where
  width := 2
  height := 36
  min_height := 12
  max_height := 26
  detail := 2
  grid_width := 4
  height_map := [207/10, 207/10, 207/10, 207/10]
  buildings := []
  rubble := []
  pending_collapses := []
  is_column_blocked := fun _ _ => false
  rubble_hit_test := fun _ _ => none

/-- Terrain with a sharp step inside gameplay cell 0, so that the surface
sample column (`x * detail`) and the solid sample column
(`(x + 0.5) * detail`) disagree. -/
def stepWorld : TanxWorld := { fracWorld with height_map := [20, 12, 12, 12] }

/-- C7, counterexample: the claimed surface/solid consistency fails on two
well-formed worlds.  On `fracWorld` (constant height 20.7) the cell below
the standing surface, `surface_y + 1`, is not solid, because the fractional
part of the height exceeds one half.  On `stepWorld` the standing surface
cell itself is solid, because `surface_y` samples sub-cell column
`x * detail` while `is_solid` samples `(x + 0.5) * detail` and the two
disagree across the step. -/
theorem surface_solid_cex :
    (fracWorld.WF ∧ fracWorld.HeightsIn ∧ fracWorld.surface_y 0 = some 19 ∧
      fracWorld.is_solid 0 (19 + 1) = false) ∧
    (stepWorld.WF ∧ stepWorld.HeightsIn ∧ stepWorld.surface_y 0 = some 19 ∧
      stepWorld.is_solid 0 19 = true) := by
  with_unfolding_all decide

/-- C7, amended: on a well-formed world, for every in-range column whose
surface sample column and solid sample column carry the same height value
`h` with fractional part at most one half, the standing surface is exactly
the first open cell above solid ground: `is_solid(x, surface_y(x))` is
false and `is_solid(x, surface_y(x) + 1)` is true.  (The counterexample
shows both side conditions are necessary.) -/
theorem surface_solid_amended (w : TanxWorld) (hwf : w.WF) (hhi : w.HeightsIn)
    (x : ℤ) (hx0 : 0 ≤ x) (hxw : x < (w.width : ℤ))
    (halign :
      w.heightAt (min ((w.grid_width : ℤ) - 1) (max 0 (x * w.detail))) =
        w.heightAt
          (min ((w.grid_width : ℤ) - 1) (max 0 (pyTrunc (((x : ℚ) + 1/2) * (w.detail : ℚ))))))
    (hfrac :
      w.heightAt (min ((w.grid_width : ℤ) - 1) (max 0 (x * w.detail))) ≤
        (⌊w.heightAt (min ((w.grid_width : ℤ) - 1) (max 0 (x * w.detail)))⌋ : ℚ) + 1/2) :
    ∃ s : ℤ, w.surface_y x = some s ∧ w.is_solid x s = false ∧
      w.is_solid x (s + 1) = true := by
  set hxs : ℤ := min ((w.grid_width : ℤ) - 1) (max 0 (x * w.detail)) with hhxs
  set h : ℚ := w.heightAt hxs with hh
  have hgw2 : 2 ≤ w.grid_width := by
    obtain ⟨hdet, hgw, -, hwid⟩ := hwf
    calc 2 = 1 * 2 := by ring
    _ ≤ w.width * w.detail := Nat.mul_le_mul hwid hdet
    _ = w.grid_width := hgw.symm
  have hmem : h ∈ w.height_map := by
    apply heightAt_mem w hwf
    · rw [hhxs]
      apply le_min
      · have : (2 : ℤ) ≤ (w.grid_width : ℤ) := by exact_mod_cast hgw2
        omega
      · exact le_max_left _ _
    · rw [hhxs]
      exact min_le_left _ _
  have hbounds := hhi.2.2.2 h hmem
  have hmin1 : (1 : ℚ) ≤ h := le_trans hhi.1 hbounds.1
  have hmaxh : h ≤ (w.height : ℚ) - 2 := le_trans hbounds.2 hhi.2.2.1
  have hfl1 : 1 ≤ ⌊h⌋ := by
    rw [Int.le_floor]
    exact_mod_cast hmin1
  have hflh : ⌊h⌋ ≤ (w.height : ℤ) - 2 := by
    have : (⌊h⌋ : ℚ) ≤ (w.height : ℚ) - 2 := le_trans (Int.floor_le h) hmaxh
    exact_mod_cast this
  have hsurf : w.surface_y x = some (⌊h⌋ - 1) := by
    rw [TanxWorld.surface_y, TanxWorld.highest_solid, if_neg (by push_neg; omega)]
    simp only [← hhxs, ← hh]
    congr 1
    omega
  refine ⟨⌊h⌋ - 1, hsurf, ?_, ?_⟩
  · rw [TanxWorld.is_solid, if_neg]
    · simp only [decide_eq_false_iff_not, not_le, ← halign]
      push_cast
      have := Int.floor_le h
      push_cast at this
      linarith
    · rw [not_not, is_inside_eq_true]
      omega
  · rw [TanxWorld.is_solid, if_neg]
    · simp only [decide_eq_true_eq, ← halign]
      have : ((⌊h⌋ - 1 + 1 : ℤ) : ℚ) = (⌊h⌋ : ℚ) := by push_cast; ring
      rw [this]
      linarith
    · rw [not_not, is_inside_eq_true]
      omega

/-- C7, witness for the amended theorem: the flat fixture world at column 0
has surface row 11, with cell 11 open and cell 12 solid. -/
theorem surface_solid_amended_witness :
    ∃ s : ℤ, flatWorld.surface_y 0 = some s ∧ flatWorld.is_solid 0 s = false ∧
      flatWorld.is_solid 0 (s + 1) = true :=
  surface_solid_amended flatWorld (by with_unfolding_all decide)
    (by with_unfolding_all decide) 0 (by with_unfolding_all decide)
    (by with_unfolding_all decide) (by with_unfolding_all decide)
    (by with_unfolding_all decide)

/-- Vertical extent `Building.floor_bounds`: `(top, bottom)` of the floor at
`index`, with `bottom = base - sum of the heights below`.  The Python method
raises on an out-of-range index, modelled by `none`. -/
def Building.floor_bounds (b : Building) (index : ℕ) : Option (ℚ × ℚ) :=
  if index < b.floors.length then
    let bottom := b.base - ((b.floors.take index).map BuildingFloor.height).sum
    some (bottom - (match b.floors.get? index with | some f => f.height | none => 0), bottom)
  else none

/-- Soundness of the floor scan: a returned index names a non-destroyed
floor whose tolerance-padded bounds (accumulated downward from `bottom`)
contain `y`. -/
theorem floorScan_sound (y : ℚ) :
    ∀ (floors : List BuildingFloor) (bottom : ℚ) (idx0 j : ℕ),
      floorScan y bottom idx0 floors = some j →
      idx0 ≤ j ∧ ∃ f, floors.get? (j - idx0) = some f ∧ f.destroyed = false ∧
        (let fb := bottom - ((floors.take (j - idx0)).map BuildingFloor.height).sum
         min (fb - f.height) fb - 1/20 ≤ y ∧ y ≤ max (fb - f.height) fb + 1/20) := by
  intro floors
  induction floors with
  | nil => intro bottom idx0 j h; exact absurd h (by simp [floorScan])
  | cons f rest ih =>
    intro bottom idx0 j h
    rw [floorScan] at h
    split_ifs at h with hcond
    · obtain ⟨hdes, hlo, hhi⟩ := hcond
      rw [Option.some_inj] at h
      subst h
      refine ⟨le_refl _, f, ?_⟩
      simp only [Nat.sub_self, List.get?_cons_zero, Option.some_inj, List.take_zero,
        List.map_nil, List.sum_nil, sub_zero]
      exact ⟨trivial, by simpa using hdes, hlo, hhi⟩
    · obtain ⟨hle, f', hget, hdes, hbounds⟩ := ih (bottom - f.height) (idx0 + 1) j h
      refine ⟨by omega, f', ?_, hdes, ?_⟩
      · rw [← hget]
        have : j - idx0 = (j - (idx0 + 1)) + 1 := by omega
        rw [this]
        simp
      · have hidx : j - idx0 = (j - (idx0 + 1)) + 1 := by omega
        simp only [hidx, List.take_succ_cons, List.map_cons, List.sum_cons]
        have : bottom - (f.height + ((rest.take (j - (idx0 + 1))).map BuildingFloor.height).sum) =
            bottom - f.height - ((rest.take (j - (idx0 + 1))).map BuildingFloor.height).sum := by
          ring
        rw [this]
        exact hbounds

/-- Completeness of the floor scan: if some floor is non-destroyed and its
tolerance-padded bounds contain `y`, the scan hits (not necessarily that
floor). -/
theorem floorScan_complete (y : ℚ) :
    ∀ (floors : List BuildingFloor) (bottom : ℚ) (idx0 j : ℕ) (f : BuildingFloor),
      floors.get? j = some f → f.destroyed = false →
      (let fb := bottom - ((floors.take j).map BuildingFloor.height).sum
       min (fb - f.height) fb - 1/20 ≤ y ∧ y ≤ max (fb - f.height) fb + 1/20) →
      (floorScan y bottom idx0 floors).isSome := by
  intro floors
  induction floors with
  | nil => intro bottom idx0 j f hget; exact absurd hget (by simp)
  | cons f0 rest ih =>
    intro bottom idx0 j f hget hdes hbounds
    rw [floorScan]
    split_ifs with hcond
    · simp
    · cases j with
      | zero =>
        simp only [List.get?_cons_zero, Option.some_inj] at hget
        subst hget
        simp only [List.take_zero, List.map_nil, List.sum_nil, sub_zero] at hbounds
        exact absurd ⟨by simpa using hdes, hbounds.1, hbounds.2⟩ hcond
      | succ j' =>
        simp only [List.get?_cons_succ] at hget
        apply ih (bottom - f0.height) (idx0 + 1) j' f hget hdes
        simp only [List.take_succ_cons, List.map_cons, List.sum_cons] at hbounds
        have : bottom - (f0.height + ((rest.take j').map BuildingFloor.height).sum) =
            bottom - f0.height - ((rest.take j').map BuildingFloor.height).sum := by
          ring
        rw [this] at hbounds
        exact hbounds

/-- Soundness of the building scan: a returned pair names a non-collapsed
building whose padded horizontal span contains `x`, together with a
successful floor scan from its base. -/
theorem buildingScan_sound (x y : ℚ) :
    ∀ (bs : List Building) (i0 bi fi : ℕ),
      buildingScan x y i0 bs = some (bi, fi) →
      i0 ≤ bi ∧ ∃ b, bs.get? (bi - i0) = some b ∧ b.collapsed = false ∧
        b.left - 3/20 ≤ x ∧ x ≤ b.right + 3/20 ∧
        floorScan y b.base 0 b.floors = some fi := by
  intro bs
  induction bs with
  | nil => intro i0 bi fi h; exact absurd h (by simp [buildingScan])
  | cons b rest ih =>
    intro i0 bi fi h
    rw [buildingScan] at h
    split_ifs at h with hcol hpad
    · obtain ⟨hle, b', hrest⟩ := ih (i0 + 1) bi fi h
      refine ⟨by omega, b', ?_⟩
      rw [show bi - i0 = (bi - (i0 + 1)) + 1 by omega]
      simpa using hrest
    · obtain ⟨hle, b', hrest⟩ := ih (i0 + 1) bi fi h
      refine ⟨by omega, b', ?_⟩
      rw [show bi - i0 = (bi - (i0 + 1)) + 1 by omega]
      simpa using hrest
    · push_neg at hpad
      rcases hfs : floorScan y b.base 0 b.floors with _ | fidx
      · rw [hfs] at h
        obtain ⟨hle, b', hrest⟩ := ih (i0 + 1) bi fi h
        refine ⟨by omega, b', ?_⟩
        rw [show bi - i0 = (bi - (i0 + 1)) + 1 by omega]
        simpa using hrest
      · rw [hfs, Option.some_inj, Prod.mk.injEq] at h
        obtain ⟨rfl, rfl⟩ := h
        exact ⟨le_refl _, b, by simp, by simpa using hcol, hpad.1, hpad.2, hfs⟩

/-- Completeness of the building scan: a non-collapsed building whose
padded span contains `x` and whose floor scan succeeds makes the whole scan
succeed. -/
theorem buildingScan_complete (x y : ℚ) :
    ∀ (bs : List Building) (i0 j : ℕ) (b : Building),
      bs.get? j = some b → b.collapsed = false →
      b.left - 3/20 ≤ x → x ≤ b.right + 3/20 →
      (floorScan y b.base 0 b.floors).isSome →
      (buildingScan x y i0 bs).isSome := by
  intro bs
  induction bs with
  | nil => intro i0 j b hget; exact absurd hget (by simp)
  | cons b0 rest ih
  =>
    intro i0 j b hget hcol hl hr hfs
    rw [buildingScan]
    split_ifs with hcol0 hpad
    · cases j with
      | zero =>
        simp only [List.get?_cons_zero, Option.some_inj] at hget
        subst hget
        rw [hcol] at hcol0
        exact absurd hcol0 (by simp)
      | succ j' =>
        simp only [List.get?_cons_succ] at hget
        exact ih (i0 + 1) j' b hget hcol hl hr hfs
    · cases j with
      | zero =>
        simp only [List.get?_cons_zero, Option.some_inj] at hget
        subst hget
        rcases hpad with hpad | hpad
        · exact absurd hl (by linarith)
        · exact absurd hr (by linarith)
      | succ j' =>
        simp only [List.get?_cons_succ] at hget
        exact ih (i0 + 1) j' b hget hcol hl hr hfs
    · rcases hfs0 : floorScan y b0.base 0 b0.floors with _ | fidx
      · cases j with
        | zero =>
          simp only [List.get?_cons_zero, Option.some_inj] at hget
          subst hget
          rw [hfs0] at hfs
          exact absurd hfs (by simp)
        | succ j' =>
          simp only [List.get?_cons_succ] at hget
          exact ih (i0 + 1) j' b hget hcol hl hr hfs
      · simp

/-- Two-floor building whose ground floor is already destroyed (hp 0). -/
def cexBuilding : Building where
  id := 0
  left := 2
  right := 6
  base := 20
  floors := [⟨3, 50, 0, true⟩, ⟨3, 60, 60, false⟩]

/-- World containing only `cexBuilding`. -/
def hitWorld : TanxWorld := { fracWorld with buildings := [cexBuilding] }

/-- C4, counterexample: the point `(4, 19)` lies inside the
tolerance-extended bounds of the destroyed ground floor (floor 0, bounds
`(17, 20)`, tolerances 0.05 vertical / 0.15 horizontal) of a non-collapsed
building, yet `building_hit_test` returns no hit: destroyed floors are
skipped, not hit-testable. -/
theorem building_hit_destroyed_cex :
    hitWorld.buildings.get? 0 = some cexBuilding ∧
    cexBuilding.collapsed = false ∧
    cexBuilding.floor_bounds 0 = some (17, 20) ∧
    (cexBuilding.floors.get? 0).map BuildingFloor.destroyed = some true ∧
    cexBuilding.left - 3/20 ≤ 4 ∧ (4 : ℚ) ≤ cexBuilding.right + 3/20 ∧
    min (17 : ℚ) 20 - 1/20 ≤ 19 ∧ (19 : ℚ) ≤ max (17 : ℚ) 20 + 1/20 ∧
    hitWorld.building_hit_test 4 19 = none := by
  with_unfolding_all decide

/-- C4, amended: `building_hit_test` skips collapsed buildings and also
skips destroyed floors.  Soundness: any returned `(building, floor)` names
a non-collapsed building whose padded horizontal span contains `x` and a
floor with `destroyed = False` whose tolerance-extended bounds contain `y`.
Completeness: whenever some non-collapsed building has a non-destroyed
floor whose padded bounds contain the point, the hit test reports a hit. -/
theorem building_hit_test_amended (w : TanxWorld) (x y : ℚ) :
    (∀ bi fi, w.building_hit_test x y = some (bi, fi) →
      ∃ b f, w.buildings.get? bi = some b ∧ b.collapsed = false ∧
        b.left - 3/20 ≤ x ∧ x ≤ b.right + 3/20 ∧
        b.floors.get? fi = some f ∧ f.destroyed = false ∧
        ∃ top bottom, b.floor_bounds fi = some (top, bottom) ∧
          min top bottom - 1/20 ≤ y ∧ y ≤ max top bottom + 1/20) ∧
    (∀ j b fi f (top bottom : ℚ), w.buildings.get? j = some b →
      b.collapsed = false → b.left - 3/20 ≤ x → x ≤ b.right + 3/20 →
      b.floors.get? fi = some f → f.destroyed = false →
      b.floor_bounds fi = some (top, bottom) →
      min top bottom - 1/20 ≤ y → y ≤ max top bottom + 1/20 →
      (w.building_hit_test x y).isSome) := by
  constructor
  · intro bi fi h
    obtain ⟨-, b, hget, hcol, hl, hr, hfs⟩ := buildingScan_sound x y w.buildings 0 bi fi h
    rw [Nat.sub_zero] at hget
    obtain ⟨-, f, hfget, hdes, hbounds⟩ := floorScan_sound y b.floors b.base 0 fi hfs
    rw [Nat.sub_zero] at hfget hbounds
    have hlt : fi < b.floors.length := List.get?_eq_some.mp hfget |>.1 |>.trans_eq rfl
    refine ⟨b, f, hget, hcol, hl, hr, hfget, hdes,
      b.base - ((b.floors.take fi).map BuildingFloor.height).sum - f.height,
      b.base - ((b.floors.take fi).map BuildingFloor.height).sum, ?_, hbounds.1, hbounds.2⟩
    rw [Building.floor_bounds, if_pos hlt, hfget]
  · intro j b fi f top bottom hget hcol hl hr hfget hdes hfb hlo hhi
    have hlt : fi < b.floors.length := List.get?_eq_some.mp hfget |>.1 |>.trans_eq rfl
    rw [Building.floor_bounds, if_pos hlt, hfget, Option.some_inj, Prod.mk.injEq] at hfb
    apply buildingScan_complete x y w.buildings 0 j b hget hcol hl hr
    apply floorScan_complete y b.floors b.base 0 fi f hfget hdes
    obtain ⟨htop, hbot⟩ := hfb
    subst htop
    subst hbot
    exact ⟨hlo, hhi⟩

/-- C4, witness for the amended theorem: the intact first floor of
`cexBuilding` is hit at `(4, 15.5)`. -/
theorem building_hit_test_amended_witness :
    (hitWorld.building_hit_test 4 (31/2)).isSome = true :=
  (building_hit_test_amended hitWorld 4 (31/2)).2 0 cexBuilding 1 ⟨3, 60, 60, false⟩
    14 17 (by with_unfolding_all decide) (by with_unfolding_all decide)
    (by with_unfolding_all decide) (by with_unfolding_all decide)
    (by with_unfolding_all decide) (by with_unfolding_all decide)
    (by with_unfolding_all decide) (by with_unfolding_all decide)
    (by with_unfolding_all decide)

/-- Index-aware read through `mapIdx`. -/
theorem get?_mapIdx {α β : Type} (l : List α) (f : ℕ → α → β) (i : ℕ) :
    (l.mapIdx f).get? i = (l.get? i).map (f i) := by
  by_cases h : i < l.length
  · rw [List.get?_eq_get h, List.get?_eq_get (by simpa using h)]
    simp [List.get_mapIdx]
  · rw [List.get?_eq_none.mpr (by simpa using not_lt.mp h),
      List.get?_eq_none.mpr (not_lt.mp h)]
    rfl

/-- A scan over floors that are all destroyed finds no intact floor. -/
theorem firstIntactFrom_none (floors : List BuildingFloor)
    (h : ∀ f ∈ floors, f.destroyed = true) :
    ∀ i, firstIntactFrom i floors = none := by
  induction floors with
  | nil => intro i; rfl
  | cons f rest ih =>
    intro i
    rw [firstIntactFrom, if_pos (h f (by simp))]
    exact ih (fun f hf => h f (by simp [hf])) (i + 1)

/-- Unfolding lemma for collapse scheduling on a known, non-collapsed
building. -/
theorem schedule_collapse_eq (w : TanxWorld) (bi : ℕ) (b : Building) (delay : ℚ)
    (hb : w.buildings.get? bi = some b) (hncol : b.collapsed = false) :
    w.schedule_building_collapse bi delay =
      { w with
        buildings := w.buildings.set bi { b with unstable := true, collapse_timer := max 0 delay }
        pending_collapses :=
          if bi ∈ w.pending_collapses then w.pending_collapses
          else w.pending_collapses ++ [bi] } := by
  rw [TanxWorld.schedule_building_collapse, hb]
  simp [hncol]

/-- C3, amended: hitting floor 0 of a non-collapsed building whose ground
floor is intact and has at most `damage` hit points (so the fixed damage
destroys it) forces every floor of the building (floor 0 and all floors
above) to hp 0 with `destroyed = True`, and schedules the building's
collapse with delay 0.8 s — not 1.2 s: because the upward cascade destroys
every floor above, `first_intact_floor_index` returns `None` and the
"no intact floor remains" branch (0.8 s) fires; the `floor_idx == 0`
1.2 s branch is unreachable.  The hypothesis that destroyed floors carry
hp 0 is the invariant every damage path of the source maintains. -/
theorem building_floor0_collapse_amended (g : GameState) (r : ShotResult)
    (bi : ℕ) (b : Building) (f0 : BuildingFloor)
    (hbi : r.hit_building = some bi) (hfi : r.hit_building_floor = some 0)
    (hix : r.impact_x.isSome = true) (hiy : r.impact_y.isSome = true)
    (hb : g.world.buildings.get? bi = some b)
    (hf : b.floors.get? 0 = some f0)
    (hnd : f0.destroyed = false)
    (hkill : f0.hp ≤ g.damage)
    (hncol : b.collapsed = false)
    (hinv : ∀ fl ∈ b.floors, fl.destroyed = true → fl.hp = 0) :
    ∃ b', (g.apply_building_damage r).world.buildings.get? bi = some b' ∧
      b'.floors.length = b.floors.length ∧
      (∀ j fj, b'.floors.get? j = some fj → fj.hp = 0 ∧ fj.destroyed = true) ∧
      b'.unstable = true ∧ b'.collapse_timer = 4/5 ∧
      bi ∈ (g.apply_building_damage r).world.pending_collapses := by
  have hlen0 : 0 < b.floors.length := List.get?_eq_some.mp hf |>.1
  have hblen : bi < g.world.buildings.length := List.get?_eq_some.mp hb |>.1
  have hdam : f0.damage g.damage =
      { f0 with hp := 0, destroyed := true } := by
    rw [BuildingFloor.damage]
    have h0 : max 0 (f0.hp - g.damage) = 0 := by omega
    simp [h0]
  simp only [GameState.apply_building_damage, hbi, hfi, hb, hlen0, not_true_eq_false,
    Bool.false_eq_true, if_false, hf, hnd, hdam, eq_self_iff_true, if_true]
  set floors1 := b.floors.set 0 { f0 with hp := 0, destroyed := true } with hfloors1
  set floors2 := floors1.mapIdx fun j fl =>
    if 0 < j ∧ ¬ fl.destroyed then { fl with hp := 0, destroyed := true } else fl
    with hfloors2
  have hall : ∀ j fj, floors2.get? j = some fj → fj.hp = 0 ∧ fj.destroyed = true := by
    intro j fj hget
    rw [hfloors2, get?_mapIdx] at hget
    cases j with
    | zero =>
      rw [hfloors1, List.get?_set_eq_of_lt _ hlen0] at hget
      simp at hget
      subst hget
      exact ⟨rfl, rfl⟩
    | succ j' =>
      rw [hfloors1, List.get?_set_ne _ _ (by omega)] at hget
      rcases hfl : b.floors.get? (j' + 1) with _ | fl
      · rw [hfl] at hget
        exact absurd hget (by simp)
      · rw [hfl] at hget
        have hmem : fl ∈ b.floors := List.get?_mem hfl
        by_cases hdes : fl.destroyed = true
        · simp [hdes] at hget
          subst hget
          exact ⟨hinv fl hmem hdes, hdes⟩
        · simp [hdes] at hget
          subst hget
          exact ⟨rfl, rfl⟩
  have hmemall : ∀ fl ∈ floors2, fl.destroyed = true := by
    intro fl hmem
    obtain ⟨k, hk⟩ := List.get_of_mem hmem
    have := hall k fl (by rw [← hk]; exact (List.get?_eq_get _).symm ▸ rfl)
    exact this.2
  have hfii : Building.first_intact_floor_index { b with floors := floors2 } = none :=
    firstIntactFrom_none floors2 hmemall 0
  simp only [hfii]
  rw [schedule_collapse_eq _ bi { b with floors := floors2 } (4/5)
    (List.get?_set_eq_of_lt _ hblen) hncol]
  refine ⟨{ b with floors := floors2, unstable := true, collapse_timer := max 0 (4/5) },
    ?_, ?_, ?_, rfl, by norm_num, ?_⟩
  · rw [List.set_set, List.get?_set_eq_of_lt _ hblen]
  · rw [hfloors2, List.length_mapIdx, hfloors1, List.length_set]
  · exact hall
  · simp only [List.mem_append, List.mem_singleton]
    split_ifs with hmem
    · exact hmem
    · simp

/-- Three-floor building, every floor intact at 20 hp, so one 25-damage hit
destroys the struck floor. -/
def bldg3 : Building where
  id := 0
  left := 2
  right := 6
  base := 20
  floors := [⟨3, 50, 20, false⟩, ⟨3, 50, 20, false⟩, ⟨3, 50, 20, false⟩]

/-- Game whose world contains only `bldg3`. -/
def cexGame3 : GameState where
  world := { fracWorld with buildings := [bldg3] }
  tanks := []

/-- Shot result recording a hit on floor 0 of `bldg3`. -/
def cexShot3 : ShotResult where
  hit_tank := none
  impact_x := some 4
  impact_y := some 19
  path := []
  hit_building := some 0
  hit_building_floor := some 0

/-- C3, counterexample: destroying floor 0 of a non-collapsed 3-floor
building does force floors 1 and 2 to hp 0 / destroyed, but the collapse is
scheduled with delay 0.8 s, not the claimed 1.2 s: the upward cascade
leaves no intact floor, so `first_intact_floor_index` is `None` and the
0.8 s branch fires; the `floor_idx == 0` branch scheduling 1.2 s is dead. -/
theorem building_floor0_delay_cex :
    (cexGame3.apply_building_damage cexShot3).world.buildings.get? 0 =
      some { bldg3 with
        floors := [⟨3, 50, 0, true⟩, ⟨3, 50, 0, true⟩, ⟨3, 50, 0, true⟩]
        unstable := true
        collapse_timer := 4/5 } ∧
    (cexGame3.apply_building_damage cexShot3).world.pending_collapses = [0] ∧
    (4/5 : ℚ) ≠ 6/5 := by
  with_unfolding_all decide

/-- C3, witness for the amended theorem at the concrete 3-floor building. -/
theorem building_floor0_collapse_amended_witness :
    ∃ b', (cexGame3.apply_building_damage cexShot3).world.buildings.get? 0 = some b' ∧
      b'.floors.length = bldg3.floors.length ∧
      (∀ j fj, b'.floors.get? j = some fj → fj.hp = 0 ∧ fj.destroyed = true) ∧
      b'.unstable = true ∧ b'.collapse_timer = 4/5 ∧
      0 ∈ (cexGame3.apply_building_damage cexShot3).world.pending_collapses :=
  building_floor0_collapse_amended cexGame3 cexShot3 0 bldg3 ⟨3, 50, 20, false⟩
    (by with_unfolding_all decide) (by with_unfolding_all decide)
    (by with_unfolding_all decide) (by with_unfolding_all decide)
    (by with_unfolding_all decide) (by with_unfolding_all decide)
    (by with_unfolding_all decide) (by with_unfolding_all decide)
    (by with_unfolding_all decide) (by with_unfolding_all decide)

/-- Settling repositions a tank but never changes its hit points. -/
theorem settleTank_hp (w : TanxWorld) (t : Tank) : (settleTank w t).hp = t.hp := by
  rw [settleTank]
  rcases w.surface_y t.x with _ | s
  · rfl
  · dsimp only
    split_ifs <;> rfl

/-- Building damage only rewrites the world component of the game state. -/
theorem apply_building_damage_world (g : GameState) (r : ShotResult) :
    ∃ w', g.apply_building_damage r = { g with world := w' } := by
  rw [GameState.apply_building_damage]
  try dsimp only
  repeat' split
  all_goals exact ⟨_, rfl⟩

/-- The impact stage of `apply_shot_effects` (building damage, rubble
damage, or carve) only rewrites the world component. -/
theorem shot_impact_effects_world (M : MathModel) (g : GameState) (r : ShotResult) :
    ∃ w', g.shot_impact_effects M r = { g with world := w' } := by
  rw [GameState.shot_impact_effects]
  split_ifs
  · exact apply_building_damage_world g r
  · repeat' split
    all_goals exact ⟨_, rfl⟩
  · repeat' split
    all_goals exact ⟨_, rfl⟩

/-- Position of each tank in the splash pass output: entry `j` is the
original entry transformed by the loop body at index `i + j`. -/
theorem splashLoop_get? (M : MathModel) (damage : ℤ) (radius ix iy : ℚ) :
    ∀ (ts : List Tank) (i j : ℕ),
      (splashLoop M damage radius ix iy i ts).1.get? j =
        (ts.get? j).map (fun t => (splashHit M damage radius ix iy (i + j) t).1) := by
  intro ts
  induction ts with
  | nil => intro i j; simp [splashLoop]
  | cons t rest ih =>
    intro i j
    cases j with
    | zero => simp [splashLoop]
    | succ j' =>
      rw [splashLoop]
      try dsimp only
      rw [List.get?_cons_succ, List.get?_cons_succ]
      have harith : i + (j' + 1) = (i + 1) + j' := by omega
      rw [harith]
      exact ih (i + 1) j'

/-- C8: when `apply_shot_effects` processes a result with an impact point
and no direct tank hit, with the explosion radius at least point-blank
range (the game always uses 1.8): every living tank at code distance
`d = hypot(tank - impact)` with `0.5 < d ≤ explosion_radius` takes splash
damage `max(1, int(damage * (1 - d/explosion_radius) * 0.6))`; a living
tank at `d ≤ 0.5` takes the full fixed damage; and any tank at
`d > explosion_radius` is untouched.  (The pass runs over every living
tank, so in particular over every living tank other than the shooter.) -/
theorem splash_damage_spec (M : MathModel) (g : GameState) (r : ShotResult)
    (ix iy : ℚ) (hix : r.impact_x = some ix) (hiy : r.impact_y = some iy)
    (hnt : r.hit_tank = none) (hrad : 1/2 ≤ g.explosion_radius)
    (i : ℕ) (t : Tank) (ht : g.tanks.get? i = some t) :
    ∃ t', (g.apply_shot_effects M r).1.tanks.get? i = some t' ∧
      (t.alive = true → 1/2 < M.hypot ((t.x : ℚ) - ix) ((t.y : ℚ) - iy) →
        M.hypot ((t.x : ℚ) - ix) ((t.y : ℚ) - iy) ≤ g.explosion_radius →
        t'.hp = max 0 (t.hp - max 1 (pyTrunc ((g.damage : ℚ) *
          (1 - M.hypot ((t.x : ℚ) - ix) ((t.y : ℚ) - iy) / g.explosion_radius) * (3/5))))) ∧
      (t.alive = true → M.hypot ((t.x : ℚ) - ix) ((t.y : ℚ) - iy) ≤ 1/2 →
        t'.hp = max 0 (t.hp - g.damage)) ∧
      (g.explosion_radius < M.hypot ((t.x : ℚ) - ix) ((t.y : ℚ) - iy) →
        t'.hp = t.hp) := by
  obtain ⟨w1, hw1⟩ := shot_impact_effects_world M g r
  set d := M.hypot ((t.x : ℚ) - ix) ((t.y : ℚ) - iy) with hd
  simp only [GameState.apply_shot_effects, hw1, GameState.shot_damage_effects, hnt, hix, hiy]
  rw [List.get?_map, splashLoop_get?, ht]
  refine ⟨_, rfl, ?_, ?_, ?_⟩
  · intro halive hlo hhi
    have hfst : (splashHit M g.damage g.explosion_radius ix iy (0 + i) t).1 =
        t.take_damage (max 1 (pyTrunc ((g.damage : ℚ) * (1 - d / g.explosion_radius) * (3/5)))) := by
      rw [splashHit]
      try dsimp only
      rw [← hd]
      rw [if_neg (by simp [halive]), if_neg (by push_neg; exact hhi),
        if_neg (not_le.mpr hlo)]
      have hmin : min (d / g.explosion_radius) 1 = d / g.explosion_radius := by
        apply min_eq_left
        rw [div_le_one (by linarith)]
        exact hhi
      rw [hmin]
    try dsimp only
    split_ifs
    · rw [settleTank_hp, hfst, Tank.take_damage]
    · rw [hfst, Tank.take_damage]
  · intro halive hle
    have hng : ¬ d > g.explosion_radius := by push_neg; linarith
    have hfst : (splashHit M g.damage g.explosion_radius ix iy (0 + i) t).1 =
        t.take_damage g.damage := by
      rw [splashHit]
      try dsimp only
      rw [← hd]
      rw [if_neg (by simp [halive]), if_neg hng, if_pos hle, if_pos halive]
    try dsimp only
    split_ifs
    · rw [settleTank_hp, hfst, Tank.take_damage]
    · rw [hfst, Tank.take_damage]
  · intro hgt
    have hfst : (splashHit M g.damage g.explosion_radius ix iy (0 + i) t).1 = t := by
      rw [splashHit]
      try dsimp only
      rw [← hd]
      by_cases halive : t.alive = true
      · rw [if_neg (by simp [halive]), if_pos hgt]
      · rw [if_pos (by simp [halive])]
    try dsimp only
    split_ifs
    · rw [settleTank_hp, hfst]
    · rw [hfst]

/-- Left-hand tank used in concrete splash states. -/
def tankA : Tank := { name := "A", x := 2, y := 11, facing := 1 }

/-- Right-hand tank used in concrete splash states. -/
def tankB : Tank := { name := "B", x := 8, y := 11, facing := -1 }

/-- Flat two-tank game with the default constants from `Game.__init__`. -/
def cexGame8 : GameState := { world := flatWorld, tanks := [tankA, tankB] }

/-- Terrain impact one unit away from `tankB`, no direct hit. -/
def cexShot8 : ShotResult where
  hit_tank := none
  impact_x := some 9
  impact_y := some 11
  path := []

/-- C8, witness: on the flat two-tank game, the tank one unit from the
impact (inside the splash band) is accounted for by the splash rule. -/
theorem splash_damage_spec_witness :
    ∃ t', ((cexGame8.apply_shot_effects sampleModel cexShot8).1).tanks.get? 1 = some t' ∧
      (tankB.alive = true →
        1/2 < sampleModel.hypot ((tankB.x : ℚ) - 9) ((tankB.y : ℚ) - 11) →
        sampleModel.hypot ((tankB.x : ℚ) - 9) ((tankB.y : ℚ) - 11) ≤ cexGame8.explosion_radius →
        t'.hp = max 0 (tankB.hp - max 1 (pyTrunc ((cexGame8.damage : ℚ) *
          (1 - sampleModel.hypot ((tankB.x : ℚ) - 9) ((tankB.y : ℚ) - 11) /
            cexGame8.explosion_radius) * (3/5))))) ∧
      (tankB.alive = true →
        sampleModel.hypot ((tankB.x : ℚ) - 9) ((tankB.y : ℚ) - 11) ≤ 1/2 →
        t'.hp = max 0 (tankB.hp - cexGame8.damage)) ∧
      (cexGame8.explosion_radius < sampleModel.hypot ((tankB.x : ℚ) - 9) ((tankB.y : ℚ) - 11) →
        t'.hp = tankB.hp) :=
  splash_damage_spec sampleModel cexGame8 cexShot8 9 11
    (by with_unfolding_all decide) (by with_unfolding_all decide)
    (by with_unfolding_all decide) (by with_unfolding_all decide)
    1 tankB (by with_unfolding_all decide)

/-- Victory checking only writes the `winner` field. -/
theorem check_victory_game (s : SessionState) : (s.check_victory).game = s.game := by
  rw [SessionState.check_victory]
  try dsimp only
  split <;> rfl

/-- C9, amended: after `resolve_projectile`, the shooter's gauge is the
clamp into `[0,1]` of its pre-update value plus the base gain 0.08 plus
`superBonus` — which is 0.75 for a direct non-self hit and otherwise, for
an impact with at least one living opponent, 0.6 when the nearest living
opponent is within 0.5 of the impact and `0.45 * (max(0,(6-d)/6))^2`
beyond — all measured on the post-effects state; the gauge always lands in
`[0,1]`.  The claim's pure falloff formula is wrong within distance 0.5,
where the code pays the flat 0.6 bonus (see the counterexample). -/
theorem resolve_super_power_amended (M : MathModel) (s : SessionState)
    (ro : Option ShotResult) (gE : GameState) (rE : Option ShotResult) (t1 : Tank)
    (hsome : ∀ r, ro = some r →
      gE = (s.game.apply_shot_effects M r).1 ∧ rE = some (s.game.apply_shot_effects M r).2)
    (hnone : ro = none → gE = s.game ∧ rE = none)
    (hcp : gE.tanks.get? s.current_player = some t1) :
    ∃ t2, (s.resolve_projectile M ro).1.game.tanks.get? s.current_player = some t2 ∧
      t2.super_power =
        max 0 (min 1 (t1.super_power + 2/25 + superBonus M gE s.current_player rE)) ∧
      0 ≤ t2.super_power ∧ t2.super_power ≤ 1 ∧
      (∀ r ix, ro = some r → r.hit_tank = none → r.impact_x = some ix →
        (livingOpponents gE s.current_player).isEmpty = false →
        nearestOpponentDist M gE s.current_player ix r.impact_y ≤ 1/2 →
        t2.super_power = max 0 (min 1 (t1.super_power + 2/25 + 3/5))) := by
  rcases ro with _ | r
  · obtain ⟨hg, hre⟩ := hnone rfl
    subst hg
    subst hre
    have hlen := (List.get?_eq_some.mp hcp).1
    refine ⟨t1.add_super_power (2/25 + superBonus M s.game s.current_player none),
      ?_, ?_, ?_, ?_, ?_⟩
    · simp only [SessionState.resolve_projectile, SessionState.update_super_power,
        SessionState.advance_turn]
      try dsimp only
      rw [hcp]
      try dsimp only
      rw [check_victory_game]
      try dsimp only
      rw [List.get?_set_eq_of_lt _ hlen]
    · rw [Tank.add_super_power]
      try dsimp only
      rw [add_assoc]
    · rw [Tank.add_super_power]
      try dsimp only
      exact le_max_left _ _
    · rw [Tank.add_super_power]
      try dsimp only
      exact max_le (by norm_num) (min_le_left _ _)
    · intro r ix habs
      exact absurd habs (by simp)
  · obtain ⟨hg, hre⟩ := hsome r rfl
    subst hg
    subst hre
    have hlen := (List.get?_eq_some.mp hcp).1
    refine ⟨t1.add_super_power (2/25 + superBonus M (s.game.apply_shot_effects M r).1
      s.current_player (some (s.game.apply_shot_effects M r).2)), ?_, ?_, ?_, ?_, ?_⟩
    · simp only [SessionState.resolve_projectile, SessionState.update_super_power,
        SessionState.advance_turn]
      try dsimp only
      rw [hcp]
      try dsimp only
      rw [check_victory_game]
      try dsimp only
      rw [List.get?_set_eq_of_lt _ hlen]
    · rw [Tank.add_super_power]
      try dsimp only
      rw [add_assoc]
    · rw [Tank.add_super_power]
      try dsimp only
      exact le_max_left _ _
    · rw [Tank.add_super_power]
      try dsimp only
      exact max_le (by norm_num) (min_le_left _ _)
    · intro r2 ix hro hnt hix hopp hnear
      rw [Option.some_inj] at hro
      subst hro
      rw [Tank.add_super_power]
      try dsimp only
      have hb : superBonus M (s.game.apply_shot_effects M r).1 s.current_player
          (some (s.game.apply_shot_effects M r).2) = 3/5 := by
        have hnt2 : (s.game.apply_shot_effects M r).2.hit_tank = none := hnt
        have hix2 : (s.game.apply_shot_effects M r).2.impact_x = some ix := hix
        have hiy2 : (s.game.apply_shot_effects M r).2.impact_y = r.impact_y := rfl
        simp only [superBonus, hnt2, hix2, hiy2, Bool.false_eq_true, if_false, hopp]
        try dsimp only
        rw [if_pos hnear]
      rw [hb, add_assoc]

/-- Two-tank game with one already-destroyed-floor building (so the
structural damage pass is a no-op and no crater is carved). -/
def cexGame9 : GameState :=
  { world := { flatWorld with buildings := [cexBuilding] }, tanks := [tankA, tankB] }

/-- Fresh session over `cexGame9`; tank A (index 0) is to shoot. -/
def cexSession9 : SessionState := { game := cexGame9 }

/-- Shot that struck the destroyed ground floor, with the impact 0.4 world
units above tank B — point-blank splash range. -/
def cexShot9 : ShotResult where
  hit_tank := none
  impact_x := some 8
  impact_y := some (53/5)
  path := []
  hit_building := some 0
  hit_building_floor := some 0

/-- C9, counterexample: a non-direct impact whose nearest living opponent
is at distance 0.4 ≤ 0.5.  The code pays the flat point-blank bonus 0.6,
leaving the shooter's gauge at 0.08 + 0.6 = 0.68, whereas the claimed
squared-falloff formula `0.45*((6-d)/6)^2` would give 0.08 + 0.392 = 0.472. -/
theorem resolve_super_power_cex :
    (cexSession9.resolve_projectile sampleModel (some cexShot9)).1.game.tanks.get? 0 =
      some { tankA with super_power := 17/25 } ∧
    nearestOpponentDist sampleModel
      ((cexSession9.game.apply_shot_effects sampleModel cexShot9).1) 0 8 (some (53/5)) = 2/5 ∧
    (17/25 : ℚ) ≠ max 0 (min 1 (0 + 2/25 + (9/20) * (max 0 ((6 - 2/5)/6)) ^ 2)) := by
  with_unfolding_all decide

/-- C9, witness for the amended theorem on the concrete point-blank
session. -/
theorem resolve_super_power_amended_witness :
    ∃ t2, (cexSession9.resolve_projectile sampleModel (some cexShot9)).1.game.tanks.get?
        cexSession9.current_player = some t2 ∧
      t2.super_power = max 0 (min 1 (tankA.super_power + 2/25 +
        superBonus sampleModel
          ((cexSession9.game.apply_shot_effects sampleModel cexShot9).1)
          cexSession9.current_player
          (some (cexSession9.game.apply_shot_effects sampleModel cexShot9).2))) ∧
      0 ≤ t2.super_power ∧ t2.super_power ≤ 1 ∧
      (∀ r ix, some cexShot9 = some r → r.hit_tank = none → r.impact_x = some ix →
        (livingOpponents ((cexSession9.game.apply_shot_effects sampleModel cexShot9).1)
          cexSession9.current_player).isEmpty = false →
        nearestOpponentDist sampleModel
          ((cexSession9.game.apply_shot_effects sampleModel cexShot9).1)
          cexSession9.current_player ix r.impact_y ≤ 1/2 →
        t2.super_power = max 0 (min 1 (tankA.super_power + 2/25 + 3/5))) :=
  resolve_super_power_amended sampleModel cexSession9 (some cexShot9)
    ((cexSession9.game.apply_shot_effects sampleModel cexShot9).1)
    (some (cexSession9.game.apply_shot_effects sampleModel cexShot9).2) tankA
    (by rintro r hr; cases hr; exact ⟨rfl, rfl⟩)
    (by intro h; exact Option.noConfusion h)
    (by with_unfolding_all decide)

/-- Read-after-write on lists with the default read. -/
theorem getD_set_eq_zero (l : List ℚ) (m n : ℕ) (a : ℚ) :
    (l.set m a).getD n 0 = if m = n ∧ n < l.length then a else l.getD n 0 := by
  by_cases h : m = n ∧ n < l.length
  · rw [if_pos h, List.getD_eq_getElem?_getD, h.1,
      List.getElem?_set_eq_of_lt _ (h.1 ▸ h.2)]
    rfl
  · rw [if_neg h]
    by_cases hm : m = n
    · subst hm
      have hlen : l.length ≤ m := by
        rcases not_and_or.mp h with h1 | h2
        · exact absurd rfl h1
        · omega
      rw [List.getD_eq_getElem?_getD, List.getD_eq_getElem?_getD,
        List.getElem?_eq_none (by simpa using hlen),
        List.getElem?_eq_none (by simpa [List.length_set] using hlen)]
    · rw [List.getD_eq_getElem?_getD, List.getD_eq_getElem?_getD, List.getElem?_set_ne hm]

/-- Rim-band predicate of `carve_circle` at a sub-cell index: strictly
outside the bowl but within the rim span `radius * 0.6`. -/
def rimIdx (detail : ℕ) (cx radius : ℚ) (hx : ℤ) : Prop :=
  radius < |(hx : ℚ) / (detail : ℚ) - cx| ∧
    |(hx : ℚ) / (detail : ℚ) - cx| ≤ radius + radius * (3/5)

instance (detail : ℕ) (cx radius : ℚ) (hx : ℤ) : Decidable (rimIdx detail cx radius hx) := by
  unfold rimIdx
  infer_instance

/-- Value written by one `carve_circle` loop body at its own index, as a
function of the previous value. -/
def carveCellValue (M : MathModel) (height : ℕ) (min_height : ℚ) (detail : ℕ)
    (cx cy radius : ℚ) (hx : ℤ) (v : ℚ) : ℚ :=
  let dist := |(hx : ℚ) / (detail : ℚ) - cx|
  if dist > radius * (9/5) then v
  else if dist ≤ radius then
    max v (min ((height : ℚ) - 1)
      (cy + (M.cos_pi (dist / radius) * (1/2) + 1/2) * (radius * (7/10))))
  else if dist ≤ radius + radius * (3/5) then
    max min_height (v - (1 - (dist - radius) / (radius * (3/5))) * (radius * (7/10) * (1/5)))
  else v

/-- One loop body preserves the height-map length. -/
theorem carveCell_length (M : MathModel) (h : ℕ) (mn : ℚ) (d : ℕ) (cx cy r : ℚ)
    (hm : List ℚ) (hx : ℤ) :
    (carveCell M h mn d cx cy r hm hx).length = hm.length := by
  rw [carveCell]
  try dsimp only
  split_ifs <;> simp [List.length_set]

/-- One loop body leaves other indices alone. -/
theorem carveCell_getD_other (M : MathModel) (h : ℕ) (mn : ℚ) (d : ℕ) (cx cy r : ℚ)
    (hm : List ℚ) (hx : ℤ) (n : ℕ) (hne : hx.toNat ≠ n) :
    (carveCell M h mn d cx cy r hm hx).getD n 0 = hm.getD n 0 := by
  rw [carveCell]
  try dsimp only
  split_ifs <;>
    first
    | rfl
    | (rw [getD_set_eq_zero]; simp [hne])

/-- One loop body writes `carveCellValue` at its own (in-range) index. -/
theorem carveCell_getD_self (M : MathModel) (h : ℕ) (mn : ℚ) (d : ℕ) (cx cy r : ℚ)
    (hm : List ℚ) (hx : ℤ) (n : ℕ) (hn : hx.toNat = n)
    (hlen : n < hm.length) :
    (carveCell M h mn d cx cy r hm hx).getD n 0 =
      carveCellValue M h mn d cx cy r hx (hm.getD n 0) := by
  rw [carveCell, carveCellValue]
  try dsimp only
  rw [hn]
  split_ifs <;>
    first
    | rfl
    | (rw [getD_set_eq_zero]; simp [hlen])

/-- Membership in the integer index window. -/
theorem intRange_mem (start : ℤ) (count : ℕ) (j : ℤ) :
    j ∈ intRange start count ↔ start ≤ j ∧ j < start + count := by
  unfold intRange
  simp only [List.mem_map, List.mem_range]
  constructor
  · rintro ⟨i, hi, rfl⟩
    omega
  · rintro ⟨h1, h2⟩
    exact ⟨(j - start).toNat, by omega, by omega⟩

/-- The integer index window has no duplicates. -/
theorem intRange_nodup (start : ℤ) (count : ℕ) : (intRange start count).Nodup := by
  unfold intRange
  refine List.Nodup.map ?_ (List.nodup_range count)
  intro a b hab
  dsimp only at hab
  omega

/-- Folding the loop body preserves the height-map length. -/
theorem foldl_carveCell_length (M : MathModel) (h : ℕ) (mn : ℚ) (d : ℕ) (cx cy r : ℚ) :
    ∀ (l : List ℤ) (hm : List ℚ),
      (l.foldl (carveCell M h mn d cx cy r) hm).length = hm.length := by
  intro l
  induction l with
  | nil => intro hm; rfl
  | cons a rest ih =>
    intro hm
    rw [List.foldl_cons, ih, carveCell_length]

/-- Folding the loop body over indices that all miss `n` leaves `n`
unchanged. -/
theorem foldl_carveCell_notmem (M : MathModel) (h : ℕ) (mn : ℚ) (d : ℕ) (cx cy r : ℚ) :
    ∀ (l : List ℤ) (hm : List ℚ) (n : ℕ), (∀ j ∈ l, j.toNat ≠ n) →
      (l.foldl (carveCell M h mn d cx cy r) hm).getD n 0 = hm.getD n 0 := by
  intro l
  induction l with
  | nil => intro hm n _; rfl
  | cons a rest ih =>
    intro hm n hmiss
    rw [List.foldl_cons, ih _ _ (fun j hj => hmiss j (by simp [hj])),
      carveCell_getD_other _ _ _ _ _ _ _ _ _ _ (hmiss a (by simp))]

/-- Folding the loop body over a duplicate-free list of non-negative
indices that contains `j` writes `carveCellValue` at `j` exactly once. -/
theorem foldl_carveCell_pin (M : MathModel) (h : ℕ) (mn : ℚ) (d : ℕ) (cx cy r : ℚ) :
    ∀ (l : List ℤ) (hm : List ℚ) (j : ℤ) (n : ℕ), l.Nodup → (∀ k ∈ l, 0 ≤ k) →
      j ∈ l → j.toNat = n → n < hm.length →
      (l.foldl (carveCell M h mn d cx cy r) hm).getD n 0 =
        carveCellValue M h mn d cx cy r j (hm.getD n 0) := by
  intro l
  induction l with
  | nil => intro hm j n _ _ hj; exact absurd hj (by simp)
  | cons a rest ih =>
    intro hm j n hnd hpos hj hn hlen
    rcases List.mem_cons.mp hj with rfl | hjr
    · rw [List.foldl_cons,
        foldl_carveCell_notmem _ _ _ _ _ _ _ rest _ n ?miss,
        carveCell_getD_self _ _ _ _ _ _ _ _ _ _ hn hlen]
      case miss =>
        intro k hk hkn
        have hknot : k ≠ j := fun hkj => (List.nodup_cons.mp hnd).1 (hkj ▸ hk)
        have hk0 : 0 ≤ k := hpos k (by simp [hk])
        have hj0 : 0 ≤ j := hpos j (by simp)
        omega
    · have hane : a.toNat ≠ n := by
        intro han
        have ha0 : 0 ≤ a := hpos a (by simp)
        have hj0 : 0 ≤ j := hpos j (by simp [hjr])
        have : a = j := by omega
        exact (List.nodup_cons.mp hnd).1 (this ▸ hjr)
      rw [List.foldl_cons,
        ih _ j n (List.nodup_cons.mp hnd).2 (fun k hk => hpos k (by simp [hk])) hjr hn
          (by rw [carveCell_length]; exact hlen),
        carveCell_getD_other _ _ _ _ _ _ _ _ _ _ hane]

/-- The written value never drops below the previous value at non-rim
indices (direct form). -/
theorem carveCellValue_le (M : MathModel) (h : ℕ) (mn : ℚ) (d : ℕ) (cx cy r : ℚ)
    (j : ℤ) (v : ℚ) (hnr : ¬ rimIdx d cx r j) :
    v ≤ carveCellValue M h mn d cx cy r j v := by
  rw [carveCellValue]
  try dsimp only
  split_ifs with h1 h2 h3
  · exact le_refl v
  · exact le_max_left _ _
  · exact absurd ⟨not_le.mp h2, h3⟩ hnr
  · exact le_refl v

/-- The written value never drops below `min_height` when the previous
value was at least `min_height`. -/
theorem carveCellValue_lower (M : MathModel) (h : ℕ) (mn : ℚ) (d : ℕ) (cx cy r : ℚ)
    (j : ℤ) (v : ℚ) (hv : mn ≤ v) :
    mn ≤ carveCellValue M h mn d cx cy r j v := by
  rw [carveCellValue]
  try dsimp only
  split_ifs
  · exact hv
  · exact le_trans hv (le_max_left _ _)
  · exact le_max_left _ _
  · exact hv

/-- Applying the written value twice is the same as applying it once at
non-rim indices. -/
theorem carveCellValue_idem (M : MathModel) (h : ℕ) (mn : ℚ) (d : ℕ) (cx cy r : ℚ)
    (j : ℤ) (v : ℚ) (hnr : ¬ rimIdx d cx r j) :
    carveCellValue M h mn d cx cy r j (carveCellValue M h mn d cx cy r j v) =
      carveCellValue M h mn d cx cy r j v := by
  simp only [carveCellValue]
  try dsimp only
  split_ifs with h1 h2 h3
  · rfl
  · rw [max_assoc, max_self]
  · exact absurd ⟨not_le.mp h2, h3⟩ hnr
  · rfl

/-- A fold over `range` with a body that ignores the index is an iterate. -/
theorem foldl_range_const {α : Type} (f : α → α) :
    ∀ (k : ℕ) (x : α), (List.range k).foldl (fun t _ => f t) x = f^[k] x := by
  intro k
  induction k with
  | zero => intro x; rfl
  | succ n ih =>
    intro x
    rw [List.range_succ, List.foldl_append, ih, List.foldl_cons, List.foldl_nil,
      Function.iterate_succ_apply']

/-- One smoothing pass preserves the length. -/
theorem smoothOnce_length (mn mx : ℚ) (start stop : ℤ) (temp : List ℚ) :
    (smoothOnce mn mx start stop temp).length = temp.length := by
  rw [smoothOnce, List.length_mapIdx]

/-- Read after one smoothing pass. -/
theorem smoothOnce_get? (mn mx : ℚ) (start stop : ℤ) (temp : List ℚ) (n : ℕ) :
    (smoothOnce mn mx start stop temp).get? n =
      (temp.get? n).map (fun v =>
        if start ≤ (n : ℤ) ∧ (n : ℤ) ≤ stop then
          max mn (min mx ((smoothRead start stop temp n (-2) * (3/20) +
            smoothRead start stop temp n (-1) * (7/20) +
            smoothRead start stop temp n 0 * (7/20) +
            smoothRead start stop temp n 1 * (3/20)) / (3/20 + 7/20 + 7/20 + 3/20)))
        else v) := by
  rw [smoothOnce, get?_mapIdx]

/-- Read after one smoothing pass, `getD` form for in-range indices. -/
theorem smoothOnce_getD (mn mx : ℚ) (start stop : ℤ) (temp : List ℚ) (n : ℕ)
    (hn : n < temp.length) :
    (smoothOnce mn mx start stop temp).getD n 0 =
      if start ≤ (n : ℤ) ∧ (n : ℤ) ≤ stop then
        max mn (min mx ((smoothRead start stop temp n (-2) * (3/20) +
          smoothRead start stop temp n (-1) * (7/20) +
          smoothRead start stop temp n 0 * (7/20) +
          smoothRead start stop temp n 1 * (3/20)) / (3/20 + 7/20 + 7/20 + 3/20)))
      else temp.getD n 0 := by
  have hget : temp.getD n 0 = temp.get ⟨n, hn⟩ := by
    rw [List.getD_eq_getElem?_getD, List.getElem?_eq_getElem hn]
    simp [List.get_eq_getElem]
  rw [List.getD_eq_getElem?_getD, ← List.get?_eq_getElem?, smoothOnce_get?,
    List.get?_eq_get hn, Option.map_some', hget]
  rfl

/-- One smoothing pass keeps every in-range value at or above `mn`. -/
theorem smoothOnce_lower (mn mx : ℚ) (start stop : ℤ) (temp : List ℚ)
    (h : ∀ n, n < temp.length → mn ≤ temp.getD n 0) :
    ∀ n, n < (smoothOnce mn mx start stop temp).length →
      mn ≤ (smoothOnce mn mx start stop temp).getD n 0 := by
  intro n hn
  rw [smoothOnce_length] at hn
  rw [smoothOnce_getD mn mx start stop temp n hn]
  split_ifs with hins
  · exact le_max_left _ _
  · exact h n hn

/-- One smoothing pass leaves indices outside the span unchanged. -/
theorem smoothOnce_outside (mn mx : ℚ) (start stop : ℤ) (temp : List ℚ) (n : ℕ)
    (h : ¬ (start ≤ (n : ℤ) ∧ (n : ℤ) ≤ stop)) :
    (smoothOnce mn mx start stop temp).getD n 0 = temp.getD n 0 := by
  by_cases hn : n < temp.length
  · rw [smoothOnce_getD mn mx start stop temp n hn, if_neg h]
  · have h1 : (smoothOnce mn mx start stop temp).length ≤ n := by
      rw [smoothOnce_length]
      omega
    rw [List.getD_eq_default _ _ h1, List.getD_eq_default _ _ (by omega : temp.length ≤ n)]

/-- One loop body never lowers a non-rim index. -/
theorem carveCell_getD_le (M : MathModel) (h : ℕ) (mn : ℚ) (d : ℕ) (cx cy r : ℚ)
    (hm : List ℚ) (hx : ℤ) (n : ℕ) (h0 : 0 ≤ hx) (hnr : ¬ rimIdx d cx r (n : ℤ)) :
    hm.getD n 0 ≤ (carveCell M h mn d cx cy r hm hx).getD n 0 := by
  by_cases heq : hx.toNat = n
  · by_cases hlen : n < hm.length
    · rw [carveCell_getD_self _ _ _ _ _ _ _ _ _ _ heq hlen]
      have hxn : hx = (n : ℤ) := by omega
      exact carveCellValue_le _ _ _ _ _ _ _ _ _ (by rw [← hxn] at hnr; exact hxn ▸ hnr)
    · rw [List.getD_eq_default _ _ (by omega : hm.length ≤ n),
        List.getD_eq_default _ _ (by rw [carveCell_length]; omega)]
  · rw [carveCell_getD_other _ _ _ _ _ _ _ _ _ _ heq]

/-- One loop body keeps in-range values at or above `mn`. -/
theorem carveCell_getD_lower (M : MathModel) (h : ℕ) (mn : ℚ) (d : ℕ) (cx cy r : ℚ)
    (hm : List ℚ) (hx : ℤ) (n : ℕ) (hlen : n < hm.length)
    (hv : mn ≤ hm.getD n 0) :
    mn ≤ (carveCell M h mn d cx cy r hm hx).getD n 0 := by
  by_cases heq : hx.toNat = n
  · rw [carveCell_getD_self _ _ _ _ _ _ _ _ _ _ heq hlen]
    exact carveCellValue_lower _ _ _ _ _ _ _ _ _ hv
  · rw [carveCell_getD_other _ _ _ _ _ _ _ _ _ _ heq]
    exact hv

/-- The write loop never lowers a non-rim index. -/
theorem foldl_carveCell_le (M : MathModel) (h : ℕ) (mn : ℚ) (d : ℕ) (cx cy r : ℚ) :
    ∀ (l : List ℤ) (hm : List ℚ) (n : ℕ), (∀ j ∈ l, 0 ≤ j) →
      ¬ rimIdx d cx r (n : ℤ) →
      hm.getD n 0 ≤ (l.foldl (carveCell M h mn d cx cy r) hm).getD n 0 := by
  intro l
  induction l with
  | nil => intro hm n _ _; exact le_refl _
  | cons a rest ih =>
    intro hm n hpos hnr
    rw [List.foldl_cons]
    exact le_trans (carveCell_getD_le _ _ _ _ _ _ _ _ _ _ (hpos a (by simp)) hnr)
      (ih _ n (fun j hj => hpos j (by simp [hj])) hnr)

/-- The write loop keeps in-range values at or above `mn`. -/
theorem foldl_carveCell_lower (M : MathModel) (h : ℕ) (mn : ℚ) (d : ℕ) (cx cy r : ℚ) :
    ∀ (l : List ℤ) (hm : List ℚ),
      (∀ n, n < hm.length → mn ≤ hm.getD n 0) →
      ∀ n, n < (l.foldl (carveCell M h mn d cx cy r) hm).length →
        mn ≤ (l.foldl (carveCell M h mn d cx cy r) hm).getD n 0 := by
  intro l
  induction l with
  | nil => intro hm hinv n hn; exact hinv n hn
  | cons a rest ih =>
    intro hm hinv n hn
    rw [List.foldl_cons] at hn ⊢
    apply ih (carveCell M h mn d cx cy r hm a)
    · intro m hm2
      rw [carveCell_length] at hm2
      exact carveCell_getD_lower _ _ _ _ _ _ _ _ _ _ hm2 (hinv m hm2)
    · exact hn

/-- Iterated smoothing preserves the length. -/
theorem smooth_iter_length (mn mx : ℚ) (start stop : ℤ) :
    ∀ (k : ℕ) (temp : List ℚ),
      ((smoothOnce mn mx start stop)^[k] temp).length = temp.length := by
  intro k
  induction k with
  | zero => intro temp; rfl
  | succ k ih =>
    intro temp
    rw [Function.iterate_succ_apply, ih, smoothOnce_length]

/-- Iterated smoothing keeps values at or above `mn`. -/
theorem smooth_iter_lower (mn mx : ℚ) (start stop : ℤ) :
    ∀ (k : ℕ) (temp : List ℚ),
      (∀ n, n < temp.length → mn ≤ temp.getD n 0) →
      ∀ n, n < ((smoothOnce mn mx start stop)^[k] temp).length →
        mn ≤ ((smoothOnce mn mx start stop)^[k] temp).getD n 0 := by
  intro k
  induction k with
  | zero => intro temp hinv n hn; exact hinv n hn
  | succ k ih =>
    intro temp hinv n hn
    rw [Function.iterate_succ_apply] at hn ⊢
    exact ih _ (smoothOnce_lower mn mx start stop temp hinv) n hn

/-- Iterated smoothing leaves indices outside the span unchanged. -/
theorem smooth_iter_outside (mn mx : ℚ) (start stop : ℤ) (n : ℕ)
    (h : ¬ (start ≤ (n : ℤ) ∧ (n : ℤ) ≤ stop)) :
    ∀ (k : ℕ) (temp : List ℚ),
      ((smoothOnce mn mx start stop)^[k] temp).getD n 0 = temp.getD n 0 := by
  intro k
  induction k with
  | zero => intro temp; rfl
  | succ k ih =>
    intro temp
    rw [Function.iterate_succ_apply, ih, smoothOnce_outside _ _ _ _ _ _ h]

/-- Test world for the carve claims: constant height-map value 20, strictly
inside the band `[min_height, max_height] = [12, 26]`, two gameplay columns
at detail 2. -/
def cexWorld2 : TanxWorld where
  width := 2
  height := 36
  min_height := 12
  max_height := 26
  detail := 2
  grid_width := 4
  height_map := [20, 20, 20, 20]
  buildings := []
  rubble := []
  pending_collapses := []
  is_column_blocked := fun _ _ => false
  rubble_hit_test := fun _ _ => none

set_option maxRecDepth 2000 in
/-- C2, counterexample: both halves of the claim fail on `cexWorld2`, whose
height-map values all lie inside `[min_height, max_height]`.  A carve whose
rim band covers sub-cell 0 (`cx = -0.6`, `radius = 0.5`) lowers
`height_map[0]` from 20 to 2993/150, so the per-index value is not
non-decreasing.  A carve with a high crater floor (`cy = 30`,
`radius = 0.1`) raises `height_map[0]` to 3007/100, above
`max_height = 26`: the affected window is a single sample, smoothing is
skipped, and no clamping happens. -/
theorem carve_bounds_cex :
    cexWorld2.HeightsIn ∧
    ((cexWorld2.carve_circle sampleModel (-3/5) 0 (1/2)).height_map.getD 0 0 = 2993/150 ∧
      (2993/150 : ℚ) < cexWorld2.height_map.getD 0 0) ∧
    ((cexWorld2.carve_circle sampleModel 0 30 (1/10)).height_map.getD 0 0 = 3007/100 ∧
      cexWorld2.max_height < 3007/100) :=
  ⟨by with_unfolding_all decide,
    ⟨le_antisymm (by with_unfolding_all decide) (by with_unfolding_all decide),
      by with_unfolding_all decide⟩,
    ⟨le_antisymm (by with_unfolding_all decide) (by with_unfolding_all decide),
      by with_unfolding_all decide⟩⟩

/-- C2, amended: `carve_circle` keeps every height value at or above
`min_height` unconditionally; it keeps every value at most `max_height`
whenever the affected window is wide enough for smoothing to run
(`start < stop`, where the final smoothing pass clamps into
`[min_height, max_height]`); and the write phase is non-decreasing at every
sub-cell index outside the rim band — rim writes may lower the value
(raising terrain), so the claimed global monotonicity holds only off the
rim, and the claimed upper bound can fail in the single-sample corner where
smoothing is skipped (see the counterexample). -/
theorem carve_bounds_amended (M : MathModel) (w : TanxWorld) (cx cy radius : ℚ) :
    ((∀ n, n < w.height_map.length → w.min_height ≤ w.height_map.getD n 0) →
      ∀ n, n < (w.carve_circle M cx cy radius).height_map.length →
        w.min_height ≤ (w.carve_circle M cx cy radius).height_map.getD n 0) ∧
    (w.min_height ≤ w.max_height →
      (∀ n, n < w.height_map.length → w.height_map.getD n 0 ≤ w.max_height) →
      carveStart w.detail cx radius < carveStop w.grid_width w.detail cx radius →
      ∀ n, n < (w.carve_circle M cx cy radius).height_map.length →
        (w.carve_circle M cx cy radius).height_map.getD n 0 ≤ w.max_height) ∧
    (∀ n : ℕ, ¬ rimIdx w.detail cx radius (n : ℤ) →
      w.height_map.getD n 0 ≤ (w.carve_writes M cx cy radius).height_map.getD n 0) := by
  have hstart0 : (0 : ℤ) ≤ carveStart w.detail cx radius := by
    rw [carveStart]
    exact le_max_left 0 _
  have hpos : ∀ j ∈ intRange (carveStart w.detail cx radius)
      (carveStop w.grid_width w.detail cx radius + 1 - carveStart w.detail cx radius).toNat,
      0 ≤ j := by
    intro j hj
    have := (intRange_mem _ _ j).mp hj
    omega
  refine ⟨?_, ?_, ?_⟩
  · intro hmin n hn
    rw [TanxWorld.carve_circle] at hn ⊢
    try dsimp only at hn ⊢
    split_ifs at hn ⊢ with h1 h2
    · exact hmin n hn
    · exact hmin n hn
    · rw [TanxWorld.carve_writes, TanxWorld.smooth_heights] at hn ⊢
      try dsimp only at hn ⊢
      split_ifs at hn ⊢ with h3
      · exact foldl_carveCell_lower _ _ _ _ _ _ _ _ _ hmin n hn
      · rw [foldl_range_const] at hn ⊢
        apply smooth_iter_lower _ _ _ _ _ _
          (foldl_carveCell_lower _ _ _ _ _ _ _ _ _ hmin) n hn
  · intro hmm hub hss n hn
    rw [TanxWorld.carve_circle] at hn ⊢
    try dsimp only at hn ⊢
    split_ifs at hn ⊢ with h1 h2
    · exact hub n hn
    · exact absurd hss (by omega)
    · rw [TanxWorld.carve_writes, TanxWorld.smooth_heights] at hn ⊢
      try dsimp only at hn ⊢
      split_ifs at hn ⊢ with h3
      · exact absurd hss (by omega)
      · rw [foldl_range_const] at hn ⊢
        rw [show (4 : ℕ) = 3 + 1 from rfl, Function.iterate_succ_apply'] at hn ⊢
        have hlen3 : n < ((smoothOnce w.min_height w.max_height
            (carveStart w.detail cx radius) (carveStop w.grid_width w.detail cx radius))^[3]
            ((intRange (carveStart w.detail cx radius)
              (carveStop w.grid_width w.detail cx radius + 1 -
                carveStart w.detail cx radius).toNat).foldl
              (carveCell M w.height w.min_height w.detail cx cy radius)
              w.height_map)).length := by
          rw [smoothOnce_length] at hn
          exact hn
        by_cases hin : carveStart w.detail cx radius ≤ (n : ℤ) ∧
            (n : ℤ) ≤ carveStop w.grid_width w.detail cx radius
        · rw [smoothOnce_getD _ _ _ _ _ _ hlen3, if_pos hin]
          exact max_le hmm (min_le_left _ _)
        · rw [smoothOnce_outside _ _ _ _ _ _ hin, smooth_iter_outside _ _ _ _ _ hin,
            foldl_carveCell_notmem _ _ _ _ _ _ _ _ _ _ ?miss]
          case miss =>
            intro j hj hjn
            have hjm := (intRange_mem _ _ j).mp hj
            exact hin (by omega)
          apply hub
          rw [smooth_iter_length, foldl_carveCell_length] at hlen3
          exact hlen3
  · intro n hnr
    rw [TanxWorld.carve_writes]
    try dsimp only
    exact foldl_carveCell_le _ _ _ _ _ _ _ _ _ _ hpos hnr

/-- Witness for the amended C2 theorem on the flat fixture world: a carve at
`cx = 3`, `radius = 0.5` has a genuine smoothing window (`start = 4 <
7 = stop`), its result at sub-cell 5 stays within `[min_height,
max_height]`, and the write phase does not decrease the off-rim sub-cell
0. -/
theorem carve_bounds_amended_witness :
    flatWorld.min_height ≤
      (flatWorld.carve_circle sampleModel 3 20 (1/2)).height_map.getD 5 0 ∧
    (flatWorld.carve_circle sampleModel 3 20 (1/2)).height_map.getD 5 0 ≤
      flatWorld.max_height ∧
    flatWorld.height_map.getD 0 0 ≤
      (flatWorld.carve_writes sampleModel 3 20 (1/2)).height_map.getD 0 0 :=
  ⟨(carve_bounds_amended sampleModel flatWorld 3 20 (1/2)).1
      (by with_unfolding_all decide) 5 (by with_unfolding_all decide),
    (carve_bounds_amended sampleModel flatWorld 3 20 (1/2)).2.1
      (by with_unfolding_all decide) (by with_unfolding_all decide)
      (by with_unfolding_all decide) 5 (by with_unfolding_all decide),
    (carve_bounds_amended sampleModel flatWorld 3 20 (1/2)).2.2 0
      (by with_unfolding_all decide)⟩

/-- Two rational lists that agree in length and pointwise through `getD`
are equal. -/
theorem ext_from_getD (l1 l2 : List ℚ) (hlen : l1.length = l2.length)
    (h : ∀ n, n < l1.length → l1.getD n 0 = l2.getD n 0) : l1 = l2 := by
  apply List.ext_getElem hlen
  intro n h1 h2
  have hh := h n h1
  rwa [List.getD_eq_getElem, List.getD_eq_getElem] at hh

/-- When no index of the window lies in the rim band, the write loop of
`carve_circle` is idempotent: each window index receives
`carveCellValue` exactly once per fold, and off-rim `carveCellValue` is
idempotent as a value function. -/
theorem foldl_carveCell_idem (M : MathModel) (h : ℕ) (mn : ℚ) (d : ℕ) (cx cy r : ℚ)
    (start : ℤ) (cnt : ℕ) (hstart : 0 ≤ start)
    (hnorim : ∀ hx ∈ intRange start cnt, ¬ rimIdx d cx r hx) (hm : List ℚ) :
    (intRange start cnt).foldl (carveCell M h mn d cx cy r)
        ((intRange start cnt).foldl (carveCell M h mn d cx cy r) hm) =
      (intRange start cnt).foldl (carveCell M h mn d cx cy r) hm := by
  have hpos : ∀ k ∈ intRange start cnt, 0 ≤ k := by
    intro k hk
    have := (intRange_mem start cnt k).mp hk
    omega
  apply ext_from_getD
  · rw [foldl_carveCell_length]
  · intro n hn
    rw [foldl_carveCell_length, foldl_carveCell_length] at hn
    by_cases hmem : (n : ℤ) ∈ intRange start cnt
    · have hlen1 : n < ((intRange start cnt).foldl (carveCell M h mn d cx cy r) hm).length := by
        rw [foldl_carveCell_length]
        exact hn
      rw [foldl_carveCell_pin M h mn d cx cy r _ _ (n : ℤ) n (intRange_nodup _ _) hpos
          hmem (by omega) hlen1,
        foldl_carveCell_pin M h mn d cx cy r _ _ (n : ℤ) n (intRange_nodup _ _) hpos
          hmem (by omega) hn,
        carveCellValue_idem M h mn d cx cy r _ _ (hnorim _ hmem)]
    · have hmiss : ∀ j ∈ intRange start cnt, j.toNat ≠ n := by
        intro j hj hjn
        have hjm := (intRange_mem start cnt j).mp hj
        apply hmem
        have hje : j = (n : ℤ) := by omega
        rwa [hje] at hj
      rw [foldl_carveCell_notmem M h mn d cx cy r _ _ _ hmiss,
        foldl_carveCell_notmem M h mn d cx cy r _ _ _ hmiss]

set_option maxRecDepth 2000 in
/-- C5, counterexample: the claim fails whenever the carve's rim band covers
a window index, because the rim branch subtracts its elevation again on
every call.  On `cexWorld2` (constant height 20) the carve at `cx = -0.6`,
`radius = 0.5` touches only sub-cell 0, which is in the rim band: the first
call lowers `height_map[0]` to 2993/150, the second to 1493/75, so calling
`carve_circle` twice with identical arguments does not reproduce the
single-call height-field (exactly, not merely beyond a floating-point
tolerance: the gap is 7/150 ≈ 0.047). -/
theorem carve_idem_cex :
    ((cexWorld2.carve_circle sampleModel (-3/5) 0 (1/2)).carve_circle sampleModel (-3/5) 0
        (1/2)).height_map.getD 0 0 = 1493/75 ∧
    (cexWorld2.carve_circle sampleModel (-3/5) 0 (1/2)).height_map.getD 0 0 = 2993/150 ∧
    (1493/75 : ℚ) ≠ 2993/150 ∧
    ((cexWorld2.carve_circle sampleModel (-3/5) 0 (1/2)).carve_circle sampleModel (-3/5) 0
        (1/2)).height_map ≠
      (cexWorld2.carve_circle sampleModel (-3/5) 0 (1/2)).height_map := by
  have hlt : ((cexWorld2.carve_circle sampleModel (-3/5) 0 (1/2)).carve_circle sampleModel
        (-3/5) 0 (1/2)).height_map.getD 0 0 <
      (cexWorld2.carve_circle sampleModel (-3/5) 0 (1/2)).height_map.getD 0 0 := by
    with_unfolding_all decide
  refine ⟨le_antisymm (by with_unfolding_all decide) (by with_unfolding_all decide),
    le_antisymm (by with_unfolding_all decide) (by with_unfolding_all decide),
    ne_of_lt (by with_unfolding_all decide), ?_⟩
  intro h
  exact absurd (congrArg (fun l : List ℚ => l.getD 0 0) h) (ne_of_lt hlt)

/-- C5, amended: when no index of the affected window lies in the carve's
rim band, the write phase of `carve_circle` is idempotent (the crater
branch is a pure clamped maximum), and if additionally the window is too
narrow for smoothing to run (`start ≥ stop`, so `_smooth_heights` is the
identity) the whole `carve_circle` call is idempotent on the height-map.
The rim branch breaks idempotence in general: it subtracts the rim
elevation on every call (see the counterexample). -/
theorem carve_idem_amended (M : MathModel) (w : TanxWorld) (cx cy radius : ℚ)
    (hnorim : ∀ hx ∈ intRange (carveStart w.detail cx radius)
        (carveStop w.grid_width w.detail cx radius + 1 - carveStart w.detail cx radius).toNat,
      ¬ rimIdx w.detail cx radius hx) :
    ((w.carve_writes M cx cy radius).carve_writes M cx cy radius).height_map =
      (w.carve_writes M cx cy radius).height_map ∧
    (¬ carveStart w.detail cx radius < carveStop w.grid_width w.detail cx radius →
      ((w.carve_circle M cx cy radius).carve_circle M cx cy radius).height_map =
        (w.carve_circle M cx cy radius).height_map) := by
  have hstart0 : (0 : ℤ) ≤ carveStart w.detail cx radius := by
    rw [carveStart]
    exact le_max_left 0 _
  have hkey : ((w.carve_writes M cx cy radius).carve_writes M cx cy radius).height_map =
      (w.carve_writes M cx cy radius).height_map := by
    simp only [TanxWorld.carve_writes]
    try dsimp only
    exact foldl_carveCell_idem M w.height w.min_height w.detail cx cy radius _ _ hstart0
      hnorim _
  refine ⟨hkey, ?_⟩
  intro hns
  by_cases h1 : radius ≤ 0
  · rw [TanxWorld.carve_circle, if_pos h1, TanxWorld.carve_circle, if_pos h1]
  · by_cases h2 : carveStart w.detail cx radius > carveStop w.grid_width w.detail cx radius
    · have hgen0 : ∀ v : TanxWorld, v.detail = w.detail → v.grid_width = w.grid_width →
          v.carve_circle M cx cy radius = v := by
        intro v hd hg
        rw [TanxWorld.carve_circle, if_neg h1]
        try dsimp only
        rw [hd, hg, if_pos h2]
      rw [hgen0 w rfl rfl, hgen0 w rfl rfl]
    · have hgen : ∀ v : TanxWorld, v.detail = w.detail → v.grid_width = w.grid_width →
          v.carve_circle M cx cy radius = v.carve_writes M cx cy radius := by
        intro v hd hg
        rw [TanxWorld.carve_circle, if_neg h1]
        try dsimp only
        rw [hd, hg, if_neg h2, TanxWorld.smooth_heights, if_pos (by omega)]
      rw [hgen w rfl rfl, hgen (w.carve_writes M cx cy radius) rfl rfl]
      exact hkey

/-- Witness for the amended C5 theorem on the flat fixture world: a narrow
carve at `cx = 0`, `radius = 0.1` has a one-sample window (`start = stop =
0`) outside the rim band, and both the write phase and the full
`carve_circle` call are idempotent there. -/
theorem carve_idem_amended_witness :
    ((flatWorld.carve_writes sampleModel 0 20 (1/10)).carve_writes sampleModel 0 20
        (1/10)).height_map = (flatWorld.carve_writes sampleModel 0 20 (1/10)).height_map ∧
    ((flatWorld.carve_circle sampleModel 0 20 (1/10)).carve_circle sampleModel 0 20
        (1/10)).height_map = (flatWorld.carve_circle sampleModel 0 20 (1/10)).height_map :=
  ⟨(carve_idem_amended sampleModel flatWorld 0 20 (1/10) (by with_unfolding_all decide)).1,
    (carve_idem_amended sampleModel flatWorld 0 20 (1/10)
        (by with_unfolding_all decide)).2 (by with_unfolding_all decide)⟩

/-- Number of hit kinds a `ShotResult` records among building, rubble and
tank; a terrain hit sets none of the three and is identified by a bare
impact point. -/
def hitKindCount (r : ShotResult) : ℕ :=
  (if r.hit_building.isSome then 1 else 0) + (if r.hit_rubble.isSome then 1 else 0) +
    (if r.hit_tank.isSome then 1 else 0)

/-- The hit kind a `ShotResult` records, reading the fields in the
precedence order building, rubble, tank; an impact point with none of the
three fields set is a terrain hit; no impact point means no hit. -/
def recordedHit (r : ShotResult) : Option HitKind :=
  match r.hit_building, r.hit_building_floor with
  | some b, some f => some (.building b f)
  | _, _ =>
    match r.hit_rubble with
    | some s => some (.rubble s)
    | none =>
      match r.hit_tank with
      | some i => some (.tank i)
      | none =>
        match r.impact_x, r.impact_y with
        | some _, some _ => some .terrain
        | _, _ => none

/-- Refinement definition following the spec's words: at a projectile
position the collision tests are consulted in the precedence order
building > rubble > tank > terrain, and the first match wins. -/
def specPrecedenceClassify (g : GameState) (shooter : ℕ) (x y : ℚ) : Option HitKind :=
  match g.world.building_hit_test x y with
  | some (b, f) => some (.building b f)
  | none =>
    match g.world.rubble_hit_test x y with
    | some s => some (.rubble s)
    | none =>
      match tankHitScan shooter x y 0 g.tanks with
      | some i => some (.tank i)
      | none =>
        if g.world.is_solid (pyRound x) (pyRound y) then some .terrain else none

/-- The `ShotResult` records exactly the hit that the spec's precedence
order selects at its impact point, and records no hit without an impact
point. -/
def recordsClassified (g : GameState) (shooter : ℕ) (r : ShotResult) : Prop :=
  match r.impact_x, r.impact_y with
  | some ix, some iy => recordedHit r = specPrecedenceClassify g shooter ix iy
  | _, _ => recordedHit r = none

/-- Every hit the integration loop can return is the spec's
precedence-ordered first match at the hit position. -/
def loopClassified (g : GameState) (shooter : ℕ) : Prop :=
  ∀ (fuel : ℕ) (x y vx vy : ℚ) (path : List (ℚ × ℚ)),
    match (projLoopSim g shooter fuel x y vx vy path).2 with
    | some kxy => specPrecedenceClassify g shooter kxy.2.1 kxy.2.2 = some kxy.1
    | none => True

/-- The integration loop of `step_projectile` only ever reports the first
matching collision test in the order building, rubble, tank, terrain. -/
theorem projLoopSim_classify (g : GameState) (shooter : ℕ) : loopClassified g shooter := by
  rw [loopClassified]
  intro fuel
  induction fuel with
  | zero =>
    intro x y vx vy path
    exact trivial
  | succ n ih =>
    intro x y vx vy path
    rw [projLoopSim]
    try dsimp only
    set x1 := x + vx * g.projectile_time_step with hx1
    set y1 := y + vy * g.projectile_time_step with hy1
    split_ifs with h1 h2 h3
    · exact trivial
    · exact ih _ _ _ _ _
    · cases hb : g.world.building_hit_test x1 y1 with
      | some p =>
        obtain ⟨b, f⟩ := p
        try dsimp only
        rw [specPrecedenceClassify, hb]
      | none =>
        cases hr : g.world.rubble_hit_test x1 y1 with
        | some s =>
          try dsimp only
          rw [specPrecedenceClassify, hb, hr]
        | none =>
          cases ht : tankHitScan shooter x1 y1 0 g.tanks with
          | some i =>
            try dsimp only
            rw [specPrecedenceClassify, hb, hr, ht]
          | none =>
            try dsimp only
            rw [specPrecedenceClassify, hb, hr, ht, if_pos h3]
    · cases hb : g.world.building_hit_test x1 y1 with
      | some p =>
        obtain ⟨b, f⟩ := p
        try dsimp only
        rw [specPrecedenceClassify, hb]
      | none =>
        cases hr : g.world.rubble_hit_test x1 y1 with
        | some s =>
          try dsimp only
          rw [specPrecedenceClassify, hb, hr]
        | none =>
          cases ht : tankHitScan shooter x1 y1 0 g.tanks with
          | some i =>
            try dsimp only
            rw [specPrecedenceClassify, hb, hr, ht]
          | none =>
            try dsimp only
            exact ih _ _ _ _ _

/-- Assembling a `ShotResult` from a loop outcome whose hit satisfies the
classifier yields a result recording at most one hit kind, and exactly the
classified one. -/
theorem mkShotResult_spec (g : GameState) (shooter : ℕ) (path : List (ℚ × ℚ))
    (res : Option (HitKind × ℚ × ℚ))
    (hcl : match res with
      | some kxy => specPrecedenceClassify g shooter kxy.2.1 kxy.2.2 = some kxy.1
      | none => True) :
    hitKindCount (mkShotResult path res) ≤ 1 ∧
      recordsClassified g shooter (mkShotResult path res) := by
  cases res with
  | none =>
    exact ⟨by simp [mkShotResult, hitKindCount], rfl⟩
  | some kxy =>
    obtain ⟨k, ix, iy⟩ := kxy
    try dsimp only at hcl
    cases k with
    | building b f =>
      refine ⟨by simp [mkShotResult, hitKindCount], ?_⟩
      rw [recordsClassified]
      try dsimp only [mkShotResult]
      exact hcl.symm
    | rubble s =>
      refine ⟨by simp [mkShotResult, hitKindCount], ?_⟩
      rw [recordsClassified]
      try dsimp only [mkShotResult]
      exact hcl.symm
    | tank i =>
      refine ⟨by simp [mkShotResult, hitKindCount], ?_⟩
      rw [recordsClassified]
      try dsimp only [mkShotResult]
      exact hcl.symm
    | terrain =>
      refine ⟨by simp [mkShotResult, hitKindCount], ?_⟩
      rw [recordsClassified]
      try dsimp only [mkShotResult]
      exact hcl.symm

/-- C1: for every fired shot simulated by `step_projectile`, the returned
`ShotResult` records at most one hit kind (among building, rubble, tank;
terrain sets none of the three); the recorded hit is exactly what the
spec's precedence order building > rubble > tank > terrain selects at the
impact point, even when several per-step tests match at once; and every hit
the integration loop can return, from any state, is that precedence-ordered
first match — the loop stops at it, so a step cannot register two hit
types. -/
theorem step_projectile_precedence (M : MathModel) (g : GameState) (shooter : ℕ) :
    hitKindCount (g.step_projectile M shooter) ≤ 1 ∧
    recordsClassified g shooter (g.step_projectile M shooter) ∧
    loopClassified g shooter := by
  have H : hitKindCount (g.step_projectile M shooter) ≤ 1 ∧
      recordsClassified g shooter (g.step_projectile M shooter) := by
    cases hs : g.tanks.get? shooter with
    | none =>
      simp only [GameState.step_projectile, hs]
      exact ⟨by simp [hitKindCount], rfl⟩
    | some sh =>
      simp only [GameState.step_projectile, hs]
      try dsimp only
      exact mkShotResult_spec g shooter _ _ (projLoopSim_classify g shooter 360 _ _ _ _ _)
  exact ⟨H.1, H.2, projLoopSim_classify g shooter⟩

/-- A sequence of `update_projectile(dt)` calls, threading the session
state and collecting the returned steps in order. -/
def runUpdates (s : SessionState) : List ℚ → SessionState × List ProjectileStep
  | [] => (s, [])
  | dt :: rest =>
    let p := s.update_projectile dt
    let q := runUpdates p.1 rest
    (q.1, p.2 :: q.2)

/-- Two adjacent contiguous slices of a list concatenate to one contiguous
slice. -/
theorem take_slice_concat {α : Type} (l : List α) (a b c : ℕ) (hab : a ≤ b) (hbc : b ≤ c) :
    (l.drop (a + 1)).take (b - a) ++ (l.drop (b + 1)).take (c - b) =
      (l.drop (a + 1)).take (c - a) := by
  have hd : (l.drop (a + 1)).drop (b - a) = l.drop (b + 1) := by
    rw [List.drop_drop]
    congr 1
    omega
  rw [show c - a = (b - a) + (c - b) from by omega, List.take_add, hd]

/-- Taking `k + 1` elements of a suffix peels off the element at the
suffix's head. -/
theorem drop_take_succ {α : Type} (l : List α) (n k : ℕ) (d : α) (hn : n < l.length) :
    (l.drop n).take (k + 1) = l.getD n d :: (l.drop (n + 1)).take k := by
  rw [List.drop_eq_getElem_cons hn, List.take_succ_cons, List.getD_eq_getElem l d hn]

/-- A run of no-op steps records no finished step. -/
theorem steps_const_countP (dts2 : List ℚ) :
    (dts2.map fun _ => ({} : ProjectileStep)).countP (fun st => st.finished) = 0 := by
  induction dts2 with
  | nil => rfl
  | cons a l ih => simp [List.countP_cons, ih]

/-- A run of no-op steps contributes no trail points. -/
theorem steps_const_join (dts2 : List ℚ) :
    ((dts2.map fun _ => ({} : ProjectileStep)).map ProjectileStep.trail_positions).flatten =
      [] := by
  induction dts2 with
  | nil => rfl
  | cons a l ih => simp [ih]

/-- Invariants of the playback loop of `update_projectile`: the index never
decreases; the appended trail is exactly the contiguous path slice from the
old cursor (exclusive) to the new cursor (inclusive); a finished loop has
pushed the cursor past the end of the path; an unfinished loop left the
cursor in place or inside the path; and with the caller's fuel budget an
unfinished loop was stopped by the timer guard, leaving the timer in
`[0, interval)`. -/
theorem projAnimLoop_spec (ivl : ℚ) (path : List (ℚ × ℚ)) :
    ∀ (fuel : ℕ) (timer : ℚ) (idx : ℕ) (trail : List (ℚ × ℚ)),
      idx ≤ (projAnimLoop ivl path fuel timer idx trail).index ∧
      (projAnimLoop ivl path fuel timer idx trail).trail =
        trail ++ (path.drop (idx + 1)).take
          ((projAnimLoop ivl path fuel timer idx trail).index - idx) ∧
      ((projAnimLoop ivl path fuel timer idx trail).finished = true →
        path.length ≤ (projAnimLoop ivl path fuel timer idx trail).index) ∧
      ((projAnimLoop ivl path fuel timer idx trail).finished = false →
        (projAnimLoop ivl path fuel timer idx trail).index = idx ∨
          (projAnimLoop ivl path fuel timer idx trail).index < path.length) ∧
      (0 < ivl → 0 ≤ timer → (⌊timer / ivl⌋).toNat < fuel →
        (projAnimLoop ivl path fuel timer idx trail).finished = false →
        0 ≤ (projAnimLoop ivl path fuel timer idx trail).timer ∧
          (projAnimLoop ivl path fuel timer idx trail).timer < ivl) := by
  intro fuel
  induction fuel with
  | zero =>
    intro timer idx trail
    refine ⟨le_refl idx, ?_, ?_, ?_, ?_⟩
    · show trail = trail ++ (path.drop (idx + 1)).take (idx - idx)
      rw [Nat.sub_self, List.take_zero, List.append_nil]
    · intro h
      exact absurd h (by simp [projAnimLoop])
    · intro _
      exact Or.inl rfl
    · intro _ _ hfuel _
      exact absurd hfuel (by omega)
  | succ n ih =>
    intro timer idx trail
    rw [projAnimLoop]
    try dsimp only
    split_ifs with h1 h2
    · refine ⟨Nat.le_succ idx, ?_, ?_, ?_, ?_⟩
      · show trail = trail ++ (path.drop (idx + 1)).take (idx + 1 - idx)
        rw [List.drop_eq_nil_of_le (by omega), List.take_nil, List.append_nil]
      · intro _
        show path.length ≤ idx + 1
        omega
      · intro h
        exact absurd h (by simp)
      · intro _ _ _ hfin
        exact absurd hfin (by simp)
    · have hlt : idx + 1 < path.length := by omega
      obtain ⟨I1, I2, I3, I4, I5⟩ :=
        ih (timer - ivl) (idx + 1) (trail ++ [path.getD (idx + 1) (0, 0)])
      refine ⟨by omega, ?_, I3, ?_, ?_⟩
      · rw [I2, List.append_assoc,
          show (projAnimLoop ivl path n (timer - ivl) (idx + 1)
              (trail ++ [path.getD (idx + 1) (0, 0)])).index - idx =
            ((projAnimLoop ivl path n (timer - ivl) (idx + 1)
              (trail ++ [path.getD (idx + 1) (0, 0)])).index - (idx + 1)) + 1 from by omega,
          drop_take_succ path (idx + 1) _ (0, 0) hlt]
        rfl
      · intro h
        right
        rcases I4 h with he | hl
        · omega
        · exact hl
      · intro hivl htimer hfuel hfin
        have htimer' : 0 ≤ timer - ivl := sub_nonneg.mpr h1
        have hfloor : ⌊(timer - ivl) / ivl⌋ = ⌊timer / ivl⌋ - 1 := by
          rw [sub_div, div_self (ne_of_gt hivl), Int.floor_sub_one]
        have h7 : (1 : ℤ) ≤ ⌊timer / ivl⌋ := by
          rw [Int.le_floor, Int.cast_one]
          exact (one_le_div hivl).mpr h1
        exact I5 hivl htimer' (by rw [hfloor]; omega) hfin
    · refine ⟨le_refl idx, ?_, ?_, fun _ => Or.inl rfl, ?_⟩
      · show trail = trail ++ (path.drop (idx + 1)).take (idx - idx)
        rw [Nat.sub_self, List.take_zero, List.append_nil]
      · intro h
        exact absurd h (by simp)
      · intro _ htimer _ _
        exact ⟨htimer, lt_of_not_ge h1⟩

/-- One `update_projectile(dt)` call on an animating session with
non-negative timer and `dt`: the cursor never moves backwards, the step's
trail is exactly the contiguous path slice the cursor passed over, a
finished step clears the pending result and returns it after the cursor
passed the path's end, and an unfinished step keeps the pending result,
returns no result, keeps the timer non-negative, and exposes the cursor's
path point as the projectile position whenever the cursor advanced. -/
theorem update_projectile_spec (t : SessionState) (r : ShotResult) (dt : ℚ)
    (hres : t.projectile_result = some r) (hdt : 0 ≤ dt)
    (hivl : 0 < t.projectile_interval) (htimer : 0 ≤ t.projectile_timer) :
    t.projectile_index ≤ (t.update_projectile dt).1.projectile_index ∧
    (t.update_projectile dt).2.trail_positions =
      (r.path.drop (t.projectile_index + 1)).take
        ((t.update_projectile dt).1.projectile_index - t.projectile_index) ∧
    (t.update_projectile dt).1.projectile_interval = t.projectile_interval ∧
    ((t.update_projectile dt).2.finished = true →
      (t.update_projectile dt).1.projectile_result = none ∧
      (t.update_projectile dt).2.result = some r ∧
      r.path.length ≤ (t.update_projectile dt).1.projectile_index) ∧
    ((t.update_projectile dt).2.finished = false →
      (t.update_projectile dt).1.projectile_result = some r ∧
      (t.update_projectile dt).2.result = none ∧
      0 ≤ (t.update_projectile dt).1.projectile_timer ∧
      (t.update_projectile dt).1.projectile_position =
        (if t.projectile_index < (t.update_projectile dt).1.projectile_index
          then r.path.get? (t.update_projectile dt).1.projectile_index
          else t.projectile_position)) := by
  obtain ⟨L1, L2, L3, L4, L5⟩ :=
    projAnimLoop_spec t.projectile_interval r.path
      ((⌊(t.projectile_timer + dt) / t.projectile_interval⌋).toNat + 1)
      (t.projectile_timer + dt) t.projectile_index []
  rw [List.nil_append] at L2
  have htimer0 : 0 ≤ t.projectile_timer + dt := add_nonneg htimer hdt
  have L5' := L5 hivl htimer0 (Nat.lt_succ_self _)
  simp only [SessionState.update_projectile, hres]
  try dsimp only
  cases hB : (projAnimLoop t.projectile_interval r.path
      ((⌊(t.projectile_timer + dt) / t.projectile_interval⌋).toNat + 1)
      (t.projectile_timer + dt) t.projectile_index []).finished with
  | true =>
    rw [if_pos rfl]
    refine ⟨L1, L2, rfl, ?_, ?_⟩
    · intro _
      exact ⟨rfl, rfl, L3 hB⟩
    · intro h
      exact absurd h (by simp)
  | false =>
    rw [if_neg (by simp)]
    refine ⟨L1, L2, rfl, ?_, ?_⟩
    · intro h
      exact absurd h (by simp)
    · intro _
      exact ⟨rfl, rfl, (L5' hB).1, rfl⟩

/-- On a session with no projectile in flight, every further
`update_projectile` call is a no-op returning an unfinished step with an
empty trail. -/
theorem runUpdates_inactive (t : SessionState) (hnone : t.projectile_result = none) :
    ∀ dts : List ℚ, runUpdates t dts = (t, dts.map fun _ => ({} : ProjectileStep)) := by
  intro dts
  induction dts with
  | nil => rfl
  | cons dt rest ih =>
    have hstep : t.update_projectile dt = (t, {}) := by
      rw [SessionState.update_projectile, hnone]
    rw [runUpdates]
    try dsimp only
    rw [hstep]
    try dsimp only
    rw [ih]
    rfl

/-- Invariant of a whole sequence of `update_projectile` calls on an
animating session: the cursor never moves backwards, the concatenated
trails are exactly the contiguous path slice the cursor passed over, the
number of finished steps is 0 while still animating and 1 once playback
ended, every finished step carries the pending result and occurred with the
cursor past the path's end, and while animating the session keeps the
pending result, its interval, a non-negative timer, and exposes the
cursor's path point as the projectile position. -/
theorem runUpdates_spec (r : ShotResult) (ivl : ℚ) (hivl : 0 < ivl) :
    ∀ (dts : List ℚ) (t : SessionState),
      (∀ dt ∈ dts, 0 ≤ dt) →
      t.projectile_result = some r → t.projectile_interval = ivl →
      0 ≤ t.projectile_timer →
      t.projectile_position = r.path.get? t.projectile_index →
      t.projectile_index ≤ (runUpdates t dts).1.projectile_index ∧
      ((runUpdates t dts).2.map ProjectileStep.trail_positions).flatten =
        (r.path.drop (t.projectile_index + 1)).take
          ((runUpdates t dts).1.projectile_index - t.projectile_index) ∧
      ((runUpdates t dts).2.countP (fun st => st.finished) =
        if (runUpdates t dts).1.is_animating_projectile = true then 0 else 1) ∧
      (∀ st ∈ (runUpdates t dts).2, st.finished = true →
        st.result = some r ∧ r.path.length ≤ (runUpdates t dts).1.projectile_index) ∧
      ((runUpdates t dts).1.is_animating_projectile = true →
        (runUpdates t dts).1.projectile_result = some r ∧
        (runUpdates t dts).1.projectile_interval = ivl ∧
        0 ≤ (runUpdates t dts).1.projectile_timer ∧
        (runUpdates t dts).1.projectile_position =
          r.path.get? (runUpdates t dts).1.projectile_index) := by
  intro dts
  induction dts with
  | nil =>
    intro t hdts hres hivl2 htimer hpos
    simp only [runUpdates]
    refine ⟨le_refl _, ?_, ?_, ?_, ?_⟩
    · rw [Nat.sub_self, List.take_zero]
      rfl
    · simp [SessionState.is_animating_projectile, hres]
    · intro st hst
      exact absurd hst (List.not_mem_nil st)
    · intro _
      exact ⟨hres, hivl2, htimer, hpos⟩
  | cons dt rest ih =>
    intro t hdts hres hivl2 htimer hpos
    obtain ⟨U1, U2, U3, U4, U5⟩ :=
      update_projectile_spec t r dt hres (hdts dt (by simp)) (by rw [hivl2]; exact hivl)
        htimer
    rw [runUpdates]
    try dsimp only
    cases hfin : (t.update_projectile dt).2.finished with
    | true =>
      obtain ⟨Hnone, Hres, Hlen⟩ := U4 hfin
      rw [runUpdates_inactive _ Hnone rest]
      try dsimp only
      refine ⟨U1, ?_, ?_, ?_, ?_⟩
      · rw [List.map_cons, List.flatten_cons, steps_const_join, List.append_nil]
        exact U2
      · simp [List.countP_cons, steps_const_countP, hfin,
          SessionState.is_animating_projectile, Hnone]
      · intro st hst hstf
        rcases List.mem_cons.mp hst with rfl | hst2
        · exact ⟨Hres, Hlen⟩
        · obtain ⟨a, _, rfl⟩ := List.mem_map.mp hst2
          exact absurd hstf (by simp)
      · intro h
        simp [SessionState.is_animating_projectile, Hnone] at h
    | false =>
      obtain ⟨Hsome, Hres0, Htimer', Hpos'⟩ := U5 hfin
      have hpos1 : (t.update_projectile dt).1.projectile_position =
          r.path.get? (t.update_projectile dt).1.projectile_index := by
        rw [Hpos']
        by_cases hadv : t.projectile_index < (t.update_projectile dt).1.projectile_index
        · rw [if_pos hadv]
        · rw [if_neg hadv, hpos,
            show (t.update_projectile dt).1.projectile_index = t.projectile_index from
              by omega]
      obtain ⟨I1, I2, I3, I4, I5⟩ :=
        ih (t.update_projectile dt).1 (fun d hd => hdts d (by simp [hd])) Hsome
          (by rw [U3, hivl2]) Htimer' hpos1
      refine ⟨le_trans U1 I1, ?_, ?_, ?_, I5⟩
      · rw [List.map_cons, List.flatten_cons, U2, I2]
        exact take_slice_concat r.path t.projectile_index
          (t.update_projectile dt).1.projectile_index
          (runUpdates (t.update_projectile dt).1 rest).1.projectile_index U1 I1
      · simp only [List.countP_cons, hfin, Bool.false_eq_true, if_false, Nat.add_zero]
        exact I3
      · intro st hst hstf
        rcases List.mem_cons.mp hst with rfl | hst2
        · rw [hfin] at hstf
          exact Bool.noConfusion hstf
        · exact I4 st hst2 hstf

/-- C10: after `begin_projectile`, for every sequence of
`update_projectile(dt)` calls with `dt ≥ 0` and a positive playback
interval, the animation is in progress; the concatenation of the returned
steps' trails is exactly the contiguous prefix of the precomputed path
(after its starting point) up to the final cursor — so each path point is
appended at most once and strictly in path order, however large each `dt`
is; the finished step is returned exactly once iff the animation has ended,
carries the original `ShotResult`, and occurs only once the cursor passed
the path's end; while animating the projectile position is the cursor's
path point; and once the animation has ended every further
`update_projectile` call is a no-op returning an unfinished step with an
empty trail. -/
theorem projectile_playback_spec (M : MathModel) (s : SessionState) (ti : ℕ)
    (dts : List ℚ) (b : SessionState × ShotResult)
    (q : SessionState × List ProjectileStep)
    (hb : b = s.begin_projectile M ti) (hq : q = runUpdates b.1 dts)
    (hivl : 0 < s.projectile_interval) (hdts : ∀ dt ∈ dts, 0 ≤ dt) :
    b.1.is_animating_projectile = true ∧
    (q.2.map ProjectileStep.trail_positions).flatten =
      (b.2.path.drop 1).take q.1.projectile_index ∧
    (q.2.countP (fun st => st.finished) =
      if q.1.is_animating_projectile = true then 0 else 1) ∧
    (∀ st ∈ q.2, st.finished = true →
      st.result = some b.2 ∧ b.2.path.length ≤ q.1.projectile_index) ∧
    (q.1.is_animating_projectile = true →
      q.1.projectile_position = b.2.path.get? q.1.projectile_index) ∧
    (q.1.is_animating_projectile = false →
      ∀ dts2, runUpdates q.1 dts2 = (q.1, dts2.map fun _ => ({} : ProjectileStep))) := by
  subst hb
  subst hq
  have hb1res : (s.begin_projectile M ti).1.projectile_result =
      some (s.begin_projectile M ti).2 := rfl
  have hb1ivl : (s.begin_projectile M ti).1.projectile_interval =
      s.projectile_interval := rfl
  have hb1timer : (s.begin_projectile M ti).1.projectile_timer = 0 := rfl
  have hb1idx : (s.begin_projectile M ti).1.projectile_index = 0 := rfl
  have hb1pos : (s.begin_projectile M ti).1.projectile_position =
      (s.begin_projectile M ti).2.path.get? 0 :=
    (List.get?_zero _).symm
  obtain ⟨R1, R2, R3, R4, R5⟩ :=
    runUpdates_spec (s.begin_projectile M ti).2 s.projectile_interval hivl dts
      (s.begin_projectile M ti).1 hdts hb1res hb1ivl (by rw [hb1timer])
      (by rw [hb1pos, hb1idx])
  rw [hb1idx] at R2
  simp only [Nat.zero_add, Nat.sub_zero] at R2
  refine ⟨?_, R2, R3, R4, ?_, ?_⟩
  · rw [SessionState.is_animating_projectile, hb1res]
    rfl
  · intro h
    exact (R5 h).2.2.2
  · intro h
    have hn : (runUpdates (s.begin_projectile M ti).1 dts).1.projectile_result = none := by
      cases hcase : (runUpdates (s.begin_projectile M ti).1 dts).1.projectile_result with
      | none => rfl
      | some v =>
        rw [SessionState.is_animating_projectile, hcase] at h
        exact Bool.noConfusion h
    intro dts2
    exact runUpdates_inactive _ hn dts2

/-- Witness for the C10 theorem: a concrete session, shooter 0, a single
0.02-second update on a 0.03-second interval. -/
theorem projectile_playback_spec_witness :
    (0 : ℚ) < cexSession9.projectile_interval ∧
    ((cexSession9.begin_projectile sampleModel 0).1.is_animating_projectile = true ∧
      ((runUpdates (cexSession9.begin_projectile sampleModel 0).1 [1/50]).2.map
          ProjectileStep.trail_positions).flatten =
        ((cexSession9.begin_projectile sampleModel 0).2.path.drop 1).take
          (runUpdates (cexSession9.begin_projectile sampleModel 0).1
            [1/50]).1.projectile_index ∧
      ((runUpdates (cexSession9.begin_projectile sampleModel 0).1 [1/50]).2.countP
          (fun st => st.finished) =
        if (runUpdates (cexSession9.begin_projectile sampleModel 0).1
            [1/50]).1.is_animating_projectile = true then 0 else 1) ∧
      (∀ st ∈ (runUpdates (cexSession9.begin_projectile sampleModel 0).1 [1/50]).2,
        st.finished = true →
        st.result = some (cexSession9.begin_projectile sampleModel 0).2 ∧
        (cexSession9.begin_projectile sampleModel 0).2.path.length ≤
          (runUpdates (cexSession9.begin_projectile sampleModel 0).1
            [1/50]).1.projectile_index) ∧
      ((runUpdates (cexSession9.begin_projectile sampleModel 0).1
          [1/50]).1.is_animating_projectile = true →
        (runUpdates (cexSession9.begin_projectile sampleModel 0).1
            [1/50]).1.projectile_position =
          (cexSession9.begin_projectile sampleModel 0).2.path.get?
            (runUpdates (cexSession9.begin_projectile sampleModel 0).1
              [1/50]).1.projectile_index) ∧
      ((runUpdates (cexSession9.begin_projectile sampleModel 0).1
          [1/50]).1.is_animating_projectile = false →
        ∀ dts2, runUpdates
            (runUpdates (cexSession9.begin_projectile sampleModel 0).1 [1/50]).1 dts2 =
          ((runUpdates (cexSession9.begin_projectile sampleModel 0).1 [1/50]).1,
            dts2.map fun _ => ({} : ProjectileStep)))) :=
  ⟨by with_unfolding_all decide,
    projectile_playback_spec sampleModel cexSession9 0 [1/50]
      (cexSession9.begin_projectile sampleModel 0)
      (runUpdates (cexSession9.begin_projectile sampleModel 0).1 [1/50]) rfl rfl
      (by with_unfolding_all decide) (by with_unfolding_all decide)⟩

end Tanx
